import Mathlib

/-!
Verification of the wasmad reverse-mode autodiff transformation.

This file gives a shallow embedding of the core of the `wasmad` repository
(`src/type.ts`, `src/tape.ts`, and the main variant of `src/index.ts`) and
proves properties of the embedded definitions.

Modelling conventions:
* binaryen value types are the inductive `ValType`; binaryen canonicalizes
  structural heap types, so the JS identity tests (`===`) on type ids are
  modelled by structural comparison.  The only identity test the core makes
  on types is against `unit` (the empty tuple, which binaryen represents as
  the `none` type), modelled by `isUnit`.
* binaryen expression references are pointers; distinct nodes are distinct
  references even when structurally equal.  Expressions are modelled by the
  labelled tree `Expr`: the `label` field plays the role of the pointer, and
  the maps of a tape plan are keyed by labels.  Reading `getExpressionInfo`
  on a stored reference is modelled by `findExpr` on the function body.
* JS `Map` objects are modelled by association lists (`JsMap`) with
  insertion-order append and in-place overwrite, matching `Map.set`.
* JS numbers appearing as wasm constant payloads are only ever stored and
  compared against zero by the core, so they are modelled by `Int`.
* JS exceptions are modelled by `Except String`; mutation of the module by
  the driver is modelled by explicitly returning the list of functions that
  were added before any exception aborted the transformation.
-/

namespace Wasmad

mutual

/-- Value types of the host IR (binaryen).  The first group are the basic
types handled (or rejected) by name in `Types.uncachedType`; `ref` is a
(possibly nullable) reference to a heap type, and `tuple` is a multivalue
type as produced by `binaryen.createType`. -/
inductive ValType where
  | i32
  | i64
  | f32
  | f64
  | noneT
  | unreachableT
  | v128
  | funcref
  | externref
  | anyref
  | eqref
  | i31ref
  | structref
  | arrayref
  | stringref
  | stringviewWtf8
  | stringviewWtf16
  | stringviewIter
  | nullref
  | nullexternref
  | nullfuncref
  | auto
  | ref (nullable : Bool) (heap : HeapType)
  | tuple (types : List ValType)

/-- Heap types of the host IR.  A struct is a list of (field type, mutable)
pairs (packedness is always "not packed" in this code base and is omitted);
`recRef i` is a temporary reference to member `i` of the recursion group
being built (`builder.getTempRefType(builder.getTempHeapType(i), false)`). -/
inductive HeapType where
  | signature
  | struct (fields : List (ValType × Bool))
  | array (element : ValType) (elementMutable : Bool)
  | recRef (index : Nat)

end

/-- Model of `binaryen.createType`: the empty list gives the `none` type,
a singleton gives the type itself, and longer lists give a tuple. -/
def createType : List ValType → ValType
  | [] => .noneT
  | [t] => t
  | ts => .tuple ts

/-- Model of `binaryen.expandType`, the inverse of `createType`. -/
def expandType : ValType → List ValType
  | .noneT => []
  | .tuple ts => ts
  | t => [t]

/-- The `unit` constant of `type.ts`: `binaryen.createType([])`. -/
def unit : ValType := createType []

/-- Model of the JS identity test `t === unit` on binaryen type ids. -/
def isUnit : ValType → Bool
  | .noneT => true
  | _ => false

theorem isUnit_iff (t : ValType) : isUnit t = true ↔ t = unit := by
  cases t <;> simp [isUnit, unit, createType]

/-- The `becomesMutable` predicate of `type.ts`. -/
def becomesMutable : ValType → Bool
  | .f32 | .f64 => true
  | _ => false

mutual

/-- Model of `Types.uncachedType` (and hence of the memoized `Types.type`):
maps a primal value type to its gradient type or fails with the
"unsupported type" error. -/
def typeG : ValType → Except String ValType
  | .i32 | .i64 => .ok unit
  | .noneT => .ok .noneT
  | .f32 => .ok .f32
  | .f64 => .ok .f64
  | .unreachableT => .ok .unreachableT
  | .v128 => .error "unsupported type: v128"
  | .funcref => .error "unsupported type: funcref"
  | .externref => .error "unsupported type: externref"
  | .anyref => .error "unsupported type: anyref"
  | .eqref => .error "unsupported type: eqref"
  | .i31ref => .error "unsupported type: i31ref"
  | .structref => .error "unsupported type: structref"
  | .arrayref => .error "unsupported type: arrayref"
  | .stringref => .error "unsupported type: stringref"
  | .stringviewWtf8 => .error "unsupported type: stringview_wtf8"
  | .stringviewWtf16 => .error "unsupported type: stringview_wtf16"
  | .stringviewIter => .error "unsupported type: stringview_iter"
  | .nullref => .error "unsupported type: nullref"
  | .nullexternref => .error "unsupported type: nullexternref"
  | .nullfuncref => .error "unsupported type: nullfuncref"
  | .auto => .error "unsupported type: auto"
  | .ref nullable heap => do pure (.ref nullable (← heapTypeG heap))
  | .tuple ts => do pure (createType ((← mapG ts).filter (fun t => ¬ isUnit t)))

/-- Element-wise gradient mapping of a list of types (the `map` half of
`Types.tuple`). -/
def mapG : List ValType → Except String (List ValType)
  | [] => .ok []
  | t :: ts => do pure ((← typeG t) :: (← mapG ts))

/-- Model of `Types.uncachedHeapType` (and of the memoized
`Types.heapType`). -/
def heapTypeG : HeapType → Except String HeapType
  | .signature => .error "unsupported heap type kind: signature"
  | .struct fields => do
    pure (.struct ((← fieldsG fields).filter (fun f => ¬ isUnit f.1)))
  | .array element elementMutable => do
    let elementType ← typeG element
    if isUnit elementType then pure (.struct [])
    else pure (.array elementType (elementMutable || becomesMutable elementType))
  | .recRef _ => .error "unknown heap type kind"

/-- Gradient mapping of struct fields: each field's type is mapped and the
field becomes mutable if it was mutable or the primal type becomes mutable
under differentiation (the `map` half of the struct case of
`Types.uncachedHeapType`). -/
def fieldsG : List (ValType × Bool) → Except String (List (ValType × Bool))
  | [] => .ok []
  | (t, m) :: fs => do
    pure ((← typeG t, m || becomesMutable t) :: (← fieldsG fs))

end

/-- Model of `Types.tuple`: map element-wise and drop unit components. -/
def tupleG (ts : List ValType) : Except String (List ValType) := do
  pure ((← mapG ts).filter (fun t => ¬ isUnit t))

example : typeG (.tuple [.i32, .f64]) = .ok .f64 := rfl

example : typeG (.tuple [.f64, .i32, .f32]) = .ok (.tuple [.f64, .f32]) := rfl

/-- Payload of a wasm constant expression.  `typeof info.value` is `"number"`
exactly for the `num` constructor; `other` carries the `typeof` string of a
non-number payload (e.g. `"bigint"` for i64 literals). -/
inductive ConstVal where
  | num (value : Int)
  | other (kind : String)

/-- Binary operators.  The planner treats `MulFloat64` and `DivFloat64`
specially and passes everything else through; the generator additionally
handles `AddFloat64` and `SubFloat64` and rejects the rest.  `other` carries
the numeric binaryen op id and the result type of the expression. -/
inductive BinOp where
  | addF64
  | subF64
  | mulF64
  | divF64
  | other (id : Nat) (type : ValType)

/-- Expressions of the host IR, restricted to the kinds the transformation
dispatches on (`expression` in `tape.ts` / `index.ts`); any other expression
id is represented by `unsupported`.  The `label` of each node models its
`ExpressionRef` pointer identity; `type` fields model the node type
annotations that `binaryen.getExpressionType` reads back. -/
inductive Expr where
  | block (label : Nat) (name : Option String) (children : List Expr) (type : ValType)
  | call (label : Nat) (target : String) (operands : List Expr) (isReturn : Bool)
      (type : ValType)
  | localGet (label : Nat) (index : Nat) (type : ValType)
  | localSet (label : Nat) (index : Nat) (isTee : Bool) (value : Expr) (type : ValType)
  | const (label : Nat) (value : ConstVal) (type : ValType)
  | binary (label : Nat) (op : BinOp) (left right : Expr)
  | structNew (label : Nat) (operands : List Expr) (type : ValType)
  | arrayNew (label : Nat) (init : Option Expr) (size : Expr) (type : ValType)
  | arrayGet (label : Nat) (arr index : Expr) (type : ValType) (isSigned : Bool)
  | arraySet (label : Nat) (arr index value : Expr)
  | arrayLen (label : Nat) (arr : Expr)
  | unsupported (label : Nat) (id : Nat)

/-- The expression reference (pointer identity) of a node. -/
def Expr.label : Expr → Nat
  | .block l _ _ _ => l
  | .call l _ _ _ _ => l
  | .localGet l _ _ => l
  | .localSet l _ _ _ _ => l
  | .const l _ _ => l
  | .binary l _ _ _ => l
  | .structNew l _ _ => l
  | .arrayNew l _ _ _ => l
  | .arrayGet l _ _ _ _ => l
  | .arraySet l _ _ _ => l
  | .arrayLen l _ => l
  | .unsupported l _ => l

/-- Model of `binaryen.getExpressionType`. -/
def Expr.type : Expr → ValType
  | .block _ _ _ t => t
  | .call _ _ _ _ t => t
  | .localGet _ _ t => t
  | .localSet _ _ isTee _ t => if isTee then t else .noneT
  | .const _ _ t => t
  | .binary _ op _ _ =>
    match op with
    | .addF64 | .subF64 | .mulF64 | .divF64 => .f64
    | .other _ t => t
  | .structNew _ _ t => t
  | .arrayNew _ _ _ t => t
  | .arrayGet _ _ _ t _ => t
  | .arraySet _ _ _ _ => .noneT
  | .arrayLen _ _ => .i32
  | .unsupported _ _ => .noneT

mutual

/-- All expression references occurring in a tree (the node itself and its
descendants), in preorder. -/
def Expr.labels : Expr → List Nat
  | .block l _ cs _ => l :: labelsList cs
  | .call l _ ops _ _ => l :: labelsList ops
  | .localGet l _ _ => [l]
  | .localSet l _ _ v _ => l :: v.labels
  | .const l _ _ => [l]
  | .binary l _ a b => l :: (a.labels ++ b.labels)
  | .structNew l ops _ => l :: labelsList ops
  | .arrayNew l init size _ =>
    l :: ((match init with | none => [] | some e => e.labels) ++ size.labels)
  | .arrayGet l a i _ _ => l :: (a.labels ++ i.labels)
  | .arraySet l a i v => l :: (a.labels ++ i.labels ++ v.labels)
  | .arrayLen l a => l :: a.labels
  | .unsupported l _ => [l]

/-- Labels of a list of trees. -/
def labelsList : List Expr → List Nat
  | [] => []
  | e :: es => e.labels ++ labelsList es

end

mutual

/-- Resolve an expression reference to its node within a tree; models
dereferencing an `ExpressionRef` (`getExpressionInfo` /
`getExpressionType` on a stored reference). -/
def findExpr (l : Nat) : Expr → Option Expr := fun e =>
  if e.label = l then some e else
  match e with
  | .block _ _ cs _ => findExprList l cs
  | .call _ _ ops _ _ => findExprList l ops
  | .localSet _ _ _ v _ => findExpr l v
  | .binary _ _ a b => (findExpr l a).orElse (fun _ => findExpr l b)
  | .structNew _ ops _ => findExprList l ops
  | .arrayNew _ init size _ =>
    (match init with
     | none => none
     | some e0 => findExpr l e0).orElse (fun _ => findExpr l size)
  | .arrayGet _ a i _ _ => (findExpr l a).orElse (fun _ => findExpr l i)
  | .arraySet _ a i v =>
    ((findExpr l a).orElse (fun _ => findExpr l i)).orElse (fun _ => findExpr l v)
  | .arrayLen _ a => findExpr l a
  | _ => none

/-- Resolve an expression reference within a list of trees. -/
def findExprList (l : Nat) : List Expr → Option Expr
  | [] => none
  | e :: es => (findExpr l e).orElse (fun _ => findExprList l es)

end

/-! ### The tape planner (`tape.ts`) -/

/-- The symbolic `Value` abstraction of the planner. -/
inductive Value where
  | param
  | void
  | const (value : Int)
  | expression (ref : Nat)

/-- How the backward pass obtains a value (`Load` in `tape.ts`). -/
inductive Load where
  | const (value : Int)
  | field (index : Nat)

/-- Association-list model of a JS `Map` with numeric keys: `set` overwrites
in place if the key is present and appends otherwise, preserving insertion
order exactly like `Map.set`. -/
abbrev JsMap (α : Type) : Type := List (Nat × α)

namespace JsMap

/-- The empty map (`new Map()`). -/
def empty {α} : JsMap α := []

/-- Model of `Map.get`. -/
def get {α} (m : JsMap α) (k : Nat) : Option α :=
  (List.find? (fun p => p.1 = k) m).map (·.2)

/-- Model of `Map.set`. -/
def set {α} (m : JsMap α) (k : Nat) (v : α) : JsMap α :=
  if (List.find? (fun p => p.1 = k) m).isSome then
    m.map (fun p => if p.1 = k then (k, v) else p)
  else m ++ [(k, v)]

/-- Keys in insertion order. -/
def keys {α} (m : JsMap α) : List Nat := m.map (·.1)

/-- Values in insertion order. -/
def values {α} (m : JsMap α) : List α := m.map (·.2)

end JsMap

/-- Mutable state of a `Taper` (the fields of the `Block` interface plus the
symbolic variable assignment `vars`). -/
structure TaperState where
  fields : Nat
  stores : JsMap Nat
  grads : JsMap Nat
  sets : JsMap Nat
  calls : JsMap Nat
  loads : JsMap Load
  gradLoads : JsMap Load
  vars : List Value

/-- The planner's effect monad: mutable `TaperState`, JS exceptions. -/
abbrev TaperM := StateT TaperState (Except String)

/-- Model of `Taper.mark`. -/
def mark (ref : Nat) (v : Value) : TaperM Value := do
  match v with
  | .param => throw "Parameter value should have been set at first read"
  | .void => throw "Void value should not be needed"
  | .const value =>
    modify (fun s => { s with loads := s.loads.set ref (.const value) })
    pure v
  | .expression r =>
    let s ← get
    match s.stores.get r with
    | some i =>
      modify (fun s => { s with loads := s.loads.set ref (.field i) })
      pure v
    | none =>
      let i := s.fields
      set { s with fields := s.fields + 1, stores := s.stores.set r i,
                   loads := s.loads.set ref (.field i) }
      pure v

/-- Model of `Taper.markGrad`. -/
def markGrad (ref : Nat) : TaperM Unit := do
  let s ← get
  match s.grads.get ref with
  | some i =>
    modify (fun s => { s with gradLoads := s.gradLoads.set ref (.field i) })
  | none =>
    let i := s.fields
    set { s with fields := s.fields + 1, grads := s.grads.set ref i,
                 gradLoads := s.gradLoads.set ref (.field i) }

mutual

/-- Model of `Taper.expr` / `Taper.expression`: the per-kind dispatch of the
planner.  `Taper.save(ref)` = `mark(ref, expr(ref))` is inlined at each of
its call sites (mul operands, div right operand, array indices). -/
def taperExpr : Expr → TaperM Value
  | .block _ _ children _ => taperChildren children
  | .call ref _ operands isReturn _ => do
    if isReturn then throw "Tail call not supported"
    taperOperands operands
    modify (fun s => { s with calls := s.calls.set ref s.fields, fields := s.fields + 1 })
    pure (.expression ref)
  | .localGet ref index _ => do
    let s ← get
    match s.vars[index]? with
    | none => throw "undefined variable"
    | some v =>
      match v with
      | .param =>
        set { s with vars := s.vars.set index (.expression ref) }
        pure (.expression ref)
      | _ => pure v
  | .localSet _ index isTee value _ => do
    let v ← taperExpr value
    modify (fun s => { s with vars := s.vars.set index v })
    pure (if isTee then v else .void)
  | .const _ value _ =>
    match value with
    | .num n => pure (.const n)
    | .other kind => throw ("Unsupported constant kind: " ++ kind)
  | .binary ref op left right => do
    match op with
    | .mulF64 =>
      let vl ← taperExpr left
      let _ ← mark left.label vl
      let vr ← taperExpr right
      let _ ← mark right.label vr
      pure (.expression ref)
    | .divF64 =>
      let _ ← taperExpr left
      let vr ← taperExpr right
      let _ ← mark right.label vr
      mark ref (.expression ref)
    | _ =>
      let _ ← taperExpr left
      let _ ← taperExpr right
      pure (.expression ref)
  | .structNew ref operands _ => do
    if operands.length ≠ 0 then throw "Struct initializer not supported"
    pure (.expression ref)
  | .arrayNew ref init size _ => do
    match init with
    | some _ => throw "Array initializer not supported"
    | none =>
      let _ ← taperExpr size
      pure (.expression ref)
  | .arrayGet ref arr index elemType _ => do
    let _ ← taperExpr arr
    if becomesMutable elemType then
      markGrad arr.label
      let vi ← taperExpr index
      let _ ← mark index.label vi
      pure (.expression ref)
    else
      let _ ← taperExpr index
      pure (.expression ref)
  | .arraySet ref arr index value => do
    let _ ← taperExpr arr
    let vi ← taperExpr index
    let _ ← mark index.label vi
    let _ ← taperExpr value
    let g ← monadLift (typeG value.type)
    if ¬ isUnit g then
      markGrad arr.label
      markGrad value.label
      modify (fun s => { s with sets := s.sets.set ref s.fields, fields := s.fields + 1 })
    pure (.expression ref)
  | .arrayLen ref arr => do
    let _ ← taperExpr arr
    pure (.expression ref)
  | .unsupported _ id => throw ("Unsupported expression ID: " ++ toString id)

/-- Model of `Taper.block`: plan children in order; the block's value is the
value of the last child (`Void` for an empty block). -/
def taperChildren : List Expr → TaperM Value
  | [] => pure .void
  | [c] => taperExpr c
  | c :: cs => do
    let _ ← taperExpr c
    taperChildren cs

/-- Plan call operands in order, discarding their values. -/
def taperOperands : List Expr → TaperM Unit
  | [] => pure ()
  | e :: es => do
    let _ ← taperExpr e
    taperOperands es

end

/-- A function of the host IR module (`binaryen.FunctionInfo`): `params` and
`results` are packed types, `vars` the declared non-parameter local types. -/
structure Func where
  name : String
  params : ValType
  results : ValType
  vars : List ValType
  body : Expr

/-- The host IR module, as far as the transformation observes it: its
function list and its exports (pairs of external name and internal name).
The transformation never reads the export list. -/
structure Module where
  functions : List Func
  exports : List (String × String)

/-- Initial symbolic variable assignment of a `Taper`: parameters are
`Param`, declared locals are `Const 0` (wasm default value). -/
def initialVars (f : Func) : List Value :=
  (expandType f.params).map (fun _ => Value.param) ++ f.vars.map (fun _ => Value.const 0)

/-- Initial state of a `Taper` (its constructor). -/
def initialTaperState (f : Func) : TaperState :=
  { fields := 0, stores := JsMap.empty, grads := JsMap.empty, sets := JsMap.empty,
    calls := JsMap.empty, loads := JsMap.empty, gradLoads := JsMap.empty,
    vars := initialVars f }

/-- Run the planner over one function: `new Taper(types, f)` followed by
`t.expr(f.body)`. -/
def runTaper (f : Func) : Except String TaperState := do
  let p ← (taperExpr f.body).run (initialTaperState f)
  pure p.2

/-- Model of `util.funcIndicesByName`: the map from function name to
function index (function names are unique within a binaryen module). -/
def funcIndicesByName (mod : Module) : List (String × Nat) :=
  mod.functions.enum.map (fun p => (p.2.name, p.1))

/-- Lookup in a string-keyed association list (JS `Map.get`). -/
def lookupStr {α} (m : List (String × α)) (k : String) : Option α :=
  (List.find? (fun p => p.1 = k) m).map (·.2)

/-- The per-function result of planning: the `Tape` interface of `tape.ts`,
with the built tape struct represented by its field list (`structFields`).
A call field has type `ref false (recRef j)` where `j` is the callee's
function index, modelling the temporary recursion-group references used by
`makeTapes`. -/
structure Tape where
  fields : Nat
  stores : JsMap Nat
  grads : JsMap Nat
  sets : JsMap Nat
  calls : JsMap Nat
  loads : JsMap Load
  gradLoads : JsMap Load
  structFields : List (ValType × Bool)

/-- The sparse field-index assignments performed by `makeTapes` when laying
out one function's tape struct: `struct[i] = ...` for each entry of
`stores`, `grads`, `sets` and `calls`, in that order. -/
def tapeFieldAssignments (indices : List (String × Nat)) (body : Expr)
    (s : TaperState) : Except String (List (Nat × (ValType × Bool))) := do
  let storeFields ← s.stores.mapM (fun p => do
    match findExpr p.1 body with
    | none => throw "dangling expression reference"
    | some e => pure (p.2, (e.type, false)))
  let gradFields ← s.grads.mapM (fun p => do
    match findExpr p.1 body with
    | none => throw "dangling expression reference"
    | some e => pure (p.2, ((← typeG e.type), false)))
  let setFields ← s.sets.mapM (fun p => do
    match findExpr p.1 body with
    | some (.arraySet _ _ _ value) => pure (p.2, ((← typeG value.type), false))
    | _ => throw "dangling expression reference")
  let callFields ← s.calls.mapM (fun p => do
    match findExpr p.1 body with
    | some (.call _ target _ _ _) =>
      match lookupStr indices target with
      | none => throw ("unresolved name: " ++ target)
      | some j => pure (p.2, (ValType.ref false (.recRef j), false))
    | _ => throw "dangling expression reference")
  pure (storeFields ++ gradFields ++ setFields ++ callFields)

/-- Materialize the sparse assignments into the dense field list of the
struct type (the array handed to `builder.setStructType`); a hole would mean
the field indices do not cover `[0, fields)`. -/
def materializeStruct (fields : Nat) (asg : List (Nat × (ValType × Bool))) :
    Except String (List (ValType × Bool)) :=
  (List.range fields).mapM (fun i =>
    match List.find? (fun p => p.1 = i) asg.reverse with
    | some p => .ok p.2
    | none => .error "tape struct field missing")

/-- The per-function body of the `makeTapes` loop: plan the function and
build its tape struct type. -/
def makeTapeOne (indices : List (String × Nat)) (f : Func) :
    Except String Tape := do
  let s ← runTaper f
  let asg ← tapeFieldAssignments indices f.body s
  let sf ← materializeStruct s.fields asg
  pure { fields := s.fields, stores := s.stores, grads := s.grads,
         sets := s.sets, calls := s.calls, loads := s.loads,
         gradLoads := s.gradLoads, structFields := sf }

/-- Model of `makeTapes`: plan every function of the module and build all
tape struct types (in the code, in one recursion group). -/
def makeTapes (mod : Module) : Except String (List Tape) :=
  let indices := funcIndicesByName mod
  mod.functions.mapM (makeTapeOne indices)

/-! ### Name minting (driver) -/

/-- Decimal digit characters of a natural number, most significant first. -/
def decDigits (n : Nat) : List Char :=
  ((Nat.digits 10 n).map Nat.digitChar).reverse

/-- Decimal representation of a natural number, used for the numeric
disambiguation suffixes `2`, `3`, ... -/
def decRepr (n : Nat) : String := ⟨decDigits n⟩

/-- Modelled from the spec: the `util.Names` class is not among the source
files (only `makeNames` in `index.ts` uses it).  Per the spec, the name set
"mints unique forward/backward export names by suffixing `_fwd`, `_bwd`, and
disambiguating with numeric suffixes": `make` returns `base` when it is
unused, and otherwise the first unused of `base2`, `base3`, ..., recording
the returned name in the set.  The candidate list is long enough that an
unused candidate always exists; the final fallback branch is unreachable. -/
def namesMake (s : List String) (base : String) : String × List String :=
  let candidates :=
    base :: (List.range (s.length + 1)).map (fun k => base ++ decRepr (k + 2))
  match candidates.find? (fun c => !(s.contains c)) with
  | some c => (c, s ++ [c])
  | none => (base, s ++ [base])

/-- Modelled from the spec: `Names.add` inserts an existing name into the
name set. -/
def namesAdd (s : List String) (name : String) : List String :=
  if s.contains name then s else s ++ [name]

/-- The pair of minted names for one function. -/
structure NamePair where
  fwd : String
  bwd : String

/-- Model of `makeNames` (`index.ts`): insert every function name into a
name set, then for each function mint `name_fwd` and `name_bwd` (with
numeric disambiguation) in order. -/
def makeNames (names : List String) : List (String × NamePair) :=
  let set := names.foldl namesAdd []
  (names.foldl (fun (acc : List (String × NamePair) × List String) name =>
    let (fwdName, s1) := namesMake acc.2 (name ++ "_fwd")
    let (bwdName, s2) := namesMake s1 (name ++ "_bwd")
    (acc.1 ++ [(name, ⟨fwdName, bwdName⟩)], s2)) ([], set)).1

/-! ### The forward/backward generator (`index.ts`, main variant) -/

/-- Expressions emitted by the generator, mirroring the builder calls it
makes on the host IR module (`mod.f64.add`, `util.structNew`, ...).
Emitted expressions are never re-inspected, so they carry no labels. -/
inductive GenExpr where
  | localGet (index : Nat) (type : ValType)
  | localSet (index : Nat) (value : GenExpr)
  | localTee (index : Nat) (value : GenExpr) (type : ValType)
  | f64Const (value : Int)
  | f64Add (left right : GenExpr)
  | f64Sub (left right : GenExpr)
  | f64Mul (left right : GenExpr)
  | f64Div (left right : GenExpr)
  | call (target : String) (operands : List GenExpr) (type : ValType)
  | blockE (name : Option String) (children : List GenExpr) (type : Option ValType)
  | tupleMk (operands : List GenExpr)
  | tupleExtract (tuple : GenExpr) (index : Nat)
  | structNew (operands : List GenExpr) (heap : HeapType)
  | structGet (index : Nat) (ref : GenExpr) (type : ValType)
  | arrayNew (heap : HeapType) (size : GenExpr)
  | arrayGet (arr index : GenExpr) (type : ValType) (isSigned : Bool)
  | arraySet (arr index value : GenExpr)
  | arrayLen (arr : GenExpr)

/-- Modelled IR-adapter helper `util.tupleMake`: the host IR disallows
1-tuples, so making a tuple from a single expression returns the expression
itself (`binaryen.createType` behaves the same way on types). -/
def tupleMake : List GenExpr → GenExpr
  | [e] => e
  | es => .tupleMk es

/-- Model of `util.typeGetHeapType`; the host IR asserts its argument is a
reference type, so the fallback is unreachable on the paths the generator
takes. -/
def typeGetHeapType : ValType → HeapType
  | .ref _ h => h
  | _ => .recRef 0

/-- Model of `util.heapTypeIsStruct`. -/
def heapTypeIsStruct : HeapType → Bool
  | .struct _ => true
  | _ => false

/-- Per-variable bookkeeping of the generator (`Var` in `index.ts`). -/
structure VarSlot where
  type : ValType
  fwd : Nat
  grad : Nat
  bwd : Nat

/-- Mutable state of an `Autodiff` instance: the growing local-type vectors,
the variable table, and the backward statement list (accumulated in source
order, emitted reversed). -/
structure AdState where
  vars : List VarSlot
  fwdVars : List ValType
  bwdVars : List ValType
  bwd : List GenExpr

/-- The parts of an `Autodiff` instance that never change after the
constructor runs. -/
structure AdContext where
  names : List (String × NamePair)
  tape : Tape
  params : List ValType
  results : List ValType
  paramsGrad : List ValType
  resultsGrad : List ValType
  fwdParams : List ValType
  bwdParams : List ValType
  fwdFields : List Nat
  bwdFields : List Nat
  fwdZeroF64 : Nat
  fwdVoid : Nat
  bwdVoid : Nat

/-- The generator's effect monad. -/
abbrev AdM := StateT AdState (Except String)

/-- The `Result` record returned by each generator method. -/
structure GenResult where
  fwd : GenExpr
  grad : Nat
  bwd : Nat

/-- Model of `Autodiff.makeFwd`. -/
def makeFwd (type : ValType) : AdM Nat := do
  let s ← get
  set { s with fwdVars := s.fwdVars ++ [type] }
  pure s.fwdVars.length

/-- Model of `Autodiff.makeBwd`. -/
def makeBwd (type : ValType) : AdM Nat := do
  let s ← get
  set { s with bwdVars := s.bwdVars ++ [type] }
  pure s.bwdVars.length

/-- Append statements to the backward list (`this.bwd.push(...)`). -/
def pushBwd (es : List GenExpr) : AdM Unit :=
  modify (fun s => { s with bwd := s.bwd ++ es })

/-- Model of `Autodiff.fwdGet`. -/
def fwdGetL (index : Nat) : AdM GenExpr := do
  pure (.localGet index ((← get).fwdVars.getD index .auto))

/-- Model of `Autodiff.get`. -/
def getL (index : Nat) : AdM GenExpr := do
  pure (.localGet index ((← get).bwdVars.getD index .auto))

/-- Model of `Autodiff.untape`: the backward-pass expression producing the
primal value of the referenced expression. -/
def untape (ctx : AdContext) (ref : Nat) : AdM GenExpr := do
  match ctx.tape.loads.get ref with
  | none => throw "unwrap: missing load"
  | some (.const v) => pure (.f64Const v)
  | some (.field i) => getL (ctx.bwdFields.getD i 0)

/-- Model of `Autodiff.bwdGrad`: the backward-pass local index for the
gradient of the given node. -/
def bwdGrad (ctx : AdContext) (e : Expr) : AdM Nat := do
  let gradType ← monadLift (typeG e.type)
  match ctx.tape.gradLoads.get e.label with
  | none => makeBwd gradType
  | some (.const v) =>
    if v ≠ 0 then throw "Non-zero gradient constant"
    else makeBwd gradType
  | some (.field i) => pure (ctx.bwdFields.getD i 0)

/-- The tail of `Autodiff.expr`: wrap the freshly emitted result in the tees
required by the planner's `stores`/`grads` assignments for this node. -/
def genWrap (ctx : AdContext) (e : Expr) (r : GenResult) : AdM GenResult := do
  let field := ctx.tape.stores.get e.label
  let gradField := ctx.tape.grads.get e.label
  match gradField with
  | none =>
    match field with
    | none => pure r
    | some f =>
      let index := ctx.fwdFields.getD f 0
      let s ← get
      pure { r with fwd := .localTee index r.fwd (s.fwdVars.getD index .auto) }
  | some gf => do
    let index ← match field with
      | none => makeFwd e.type
      | some f => pure (ctx.fwdFields.getD f 0)
    let gradIndex := ctx.fwdFields.getD gf 0
    let gradGet ← fwdGetL r.grad
    let indexGet ← fwdGetL index
    let children : List GenExpr := [
      .localSet index r.fwd,
      .localSet gradIndex gradGet,
      indexGet]
    pure { fwd := .blockE none children (some e.type), grad := r.grad, bwd := r.bwd }

mutual

/-- Model of `Autodiff.expr`: dispatch on the expression kind
(`Autodiff.expression`), then wrap the forward value in the tees required by
the planner's `stores`/`grads` assignments for this node (`genWrap`). -/
def genExpr (ctx : AdContext) (e : Expr) : AdM GenResult := do
  let r : GenResult ← (match e with
  | .block _ name children type => do
    match children with
    | [] => pure { fwd := .blockE name [] none, grad := ctx.fwdVoid, bwd := ctx.bwdVoid }
    | c :: cs => do
      let (initFwd, last) ← genBlockChildren ctx (c :: cs)
      pure { fwd := GenExpr.blockE name (initFwd ++ [last.fwd]) (some type),
             grad := last.grad, bwd := last.bwd }
  | .call ref target operands _ type => do
    let rs ← genOperands ctx operands
    let nm ← match lookupStr ctx.names target with
      | none => throw "unwrap: unknown call target"
      | some nm => pure nm
    let opParams := operands.map Expr.type
    let results := expandType type
    let paramsGrad ← monadLift (tupleG opParams)
    let resultsGrad ← monadLift (tupleG results)
    let field ← match ctx.tape.calls.get ref with
      | none => throw "unwrap: missing call tape field"
      | some i => pure i
    let fwdTape := ctx.fwdFields.getD field 0
    let fwdGrad ← makeFwd (createType resultsGrad)
    let sv ← get
    let returnType := createType (results ++ resultsGrad ++
      [sv.fwdVars.getD fwdTape ValType.auto])
    let tup ← makeFwd returnType
    let callE := GenExpr.localTee tup
      (.call nm.fwd (rs.map (·.fwd) ++ operands.map (fun _ => GenExpr.f64Const 0))
        returnType) returnType
    let bwdTape := ctx.bwdFields.getD field 0
    let gradIn ← makeBwd (createType paramsGrad)
    let gradOut ← makeBwd (createType resultsGrad)
    let gradInGet ← getL gradIn
    pushBwd (rs.enum.map (fun p =>
      GenExpr.localSet p.2.bwd (.tupleExtract gradInGet p.1)))
    let sv2 ← get
    let opGets := rs.map (fun r =>
      GenExpr.localGet r.bwd (sv2.bwdVars.getD r.bwd ValType.auto))
    let gradOutGet ← getL gradOut
    let tapeGet ← getL bwdTape
    pushBwd [GenExpr.localSet gradIn
      (.call nm.bwd
        (opGets ++ resultsGrad.enum.map (fun p => GenExpr.tupleExtract gradOutGet p.1)
          ++ [tapeGet])
        (createType paramsGrad))]
    let tupGet ← fwdGetL tup
    let fwdChildren : List GenExpr := [
      .localSet fwdTape (.tupleExtract callE (results.length + resultsGrad.length)),
      .localSet fwdGrad (tupleMake (resultsGrad.enum.map (fun p =>
        GenExpr.tupleExtract tupGet (results.length + p.1)))),
      tupleMake (results.enum.map (fun p => GenExpr.tupleExtract tupGet p.1))]
    pure { fwd := GenExpr.blockE none fwdChildren (some type),
           grad := fwdGrad, bwd := gradOut }
  | .localGet _ index _ => do
    let s ← get
    match s.vars[index]? with
    | none => throw "undefined variable"
    | some slot =>
      pure { fwd := .localGet slot.fwd (s.fwdVars.getD slot.fwd .auto),
             grad := slot.grad, bwd := slot.bwd }
  | .localSet _ index isTee value _ => do
    let v ← genExpr ctx value
    let s ← get
    match s.vars[index]? with
    | none => throw "undefined variable"
    | some slot =>
      let gradType := s.bwdVars.getD slot.bwd .auto
      let bwd ← makeBwd gradType
      modify (fun s2 => { s2 with vars := s2.vars.set index { slot with bwd := bwd } })
      if isUnit gradType then
        let s3 ← get
        let fwd := if isTee then
            GenExpr.localTee slot.fwd v.fwd (s3.fwdVars.getD slot.fwd .auto)
          else GenExpr.localSet slot.fwd v.fwd
        pure { fwd := fwd, grad := slot.grad, bwd := bwd }
      else
        let bwdGet ← getL bwd
        pushBwd [GenExpr.localSet v.bwd bwdGet]
        let gradGet ← fwdGetL v.grad
        let children := [GenExpr.localSet slot.fwd v.fwd,
                         GenExpr.localSet slot.grad gradGet]
        let children ← (do
          if isTee then
            let fwdGet ← fwdGetL slot.fwd
            pure (children ++ [fwdGet])
          else pure children)
        pure { fwd := .blockE none children (some .auto), grad := slot.grad, bwd := bwd }
  | .const _ value type => do
    match value with
    | .other kind => throw ("Unsupported constant kind: " ++ kind)
    | .num v =>
      match type with
      | .f64 => do
        let bwd ← bwdGrad ctx e
        pure { fwd := .f64Const v, grad := ctx.fwdZeroF64, bwd := bwd }
      | _ => throw "Unsupported constant type"
  | .binary ref op left right => do
    let l ← genExpr ctx left
    let r ← genExpr ctx right
    let dx := l.bwd
    let dy := r.bwd
    let dz ← bwdGrad ctx e
    match op with
    | .addF64 => do
      let dxG ← getL dx
      let dyG ← getL dy
      let dzG ← getL dz
      pushBwd [.localSet dx (.f64Add dxG dzG), .localSet dy (.f64Add dyG dzG)]
      pure { fwd := .f64Add l.fwd r.fwd, grad := ctx.fwdZeroF64, bwd := dz }
    | .subF64 => do
      let dxG ← getL dx
      let dyG ← getL dy
      let dzG ← getL dz
      pushBwd [.localSet dx (.f64Add dxG dzG), .localSet dy (.f64Sub dyG dzG)]
      pure { fwd := .f64Sub l.fwd r.fwd, grad := ctx.fwdZeroF64, bwd := dz }
    | .mulF64 => do
      let dxG ← getL dx
      let dyG ← getL dy
      let dzG ← getL dz
      let yT ← untape ctx right.label
      let xT ← untape ctx left.label
      pushBwd [.localSet dx (.f64Add dxG (.f64Mul dzG yT)),
               .localSet dy (.f64Add dyG (.f64Mul dzG xT))]
      pure { fwd := .f64Mul l.fwd r.fwd, grad := ctx.fwdZeroF64, bwd := dz }
    | .divF64 => do
      let dx1 ← makeBwd .f64
      let dxG ← getL dx
      let dyG ← getL dy
      let dzG ← getL dz
      let dx1G ← getL dx1
      let yT ← untape ctx right.label
      let zT ← untape ctx ref
      pushBwd [.localSet dx (.f64Add dxG dx1G),
               .localSet dy (.f64Sub dyG
                 (.f64Mul (.localTee dx1 (.f64Div dzG yT) .f64) zT))]
      pure { fwd := .f64Div l.fwd r.fwd, grad := ctx.fwdZeroF64, bwd := dz }
    | .other id _ => throw ("Unsupported binary operation: " ++ toString id)
  | .structNew _ operands type => do
    if operands.length ≠ 0 then throw "Struct initializer not supported"
    let gradType ← monadLift (typeG type)
    let grad ← makeFwd gradType
    let bwd ← bwdGrad ctx e
    let children : List GenExpr := [
      .localSet grad (.structNew [] (typeGetHeapType gradType)),
      .structNew [] (typeGetHeapType type)]
    pure { fwd := .blockE none children (some type), grad := grad, bwd := bwd }
  | .arrayNew _ init size type => do
    match init with
    | some _ => throw "Array initializer not supported"
    | none => do
      let sz ← genExpr ctx size
      let gradType ← monadLift (typeG type)
      let gradHeapType := typeGetHeapType gradType
      let grad ← makeFwd gradType
      let bwd ← bwdGrad ctx e
      if heapTypeIsStruct gradHeapType then
        let children : List GenExpr := [
          .localSet grad (.structNew [] gradHeapType),
          .arrayNew (typeGetHeapType type) sz.fwd]
        pure { fwd := .blockE none children (some type), grad := grad, bwd := bwd }
      else
        let sizeVar ← makeFwd .i32
        let children : List GenExpr := [
          .localSet grad (.arrayNew gradHeapType (.localTee sizeVar sz.fwd .i32)),
          .arrayNew (typeGetHeapType type) (.localGet sizeVar .i32)]
        pure { fwd := .blockE none children (some type), grad := grad, bwd := bwd }
  | .arrayGet _ arr index type _ => do
    let a ← genExpr ctx arr
    let i ← genExpr ctx index
    let gradType ← monadLift (typeG type)
    let bwd ← bwdGrad ctx e
    if becomesMutable type then
      let aBwd ← getL a.bwd
      let iT ← untape ctx index.label
      let bwdGet ← getL bwd
      pushBwd [.arraySet aBwd iT
        (.f64Add (.arrayGet aBwd iT gradType false) bwdGet)]
      pure { fwd := .arrayGet a.fwd i.fwd type false, grad := ctx.fwdZeroF64, bwd := bwd }
    else if isUnit gradType then
      pure { fwd := .arrayGet a.fwd i.fwd type
               (match e with | .arrayGet _ _ _ _ sg => sg | _ => false),
             grad := ctx.fwdVoid, bwd := bwd }
    else
      let indexVar ← makeFwd .i32
      let grad ← makeFwd gradType
      let arrGradGet ← fwdGetL a.grad
      let idxChildren : List GenExpr := [
        .localSet grad (.arrayGet arrGradGet (.localTee indexVar i.fwd .i32) gradType false),
        .localGet indexVar .i32]
      pure { fwd := .arrayGet a.fwd (.blockE none idxChildren (some .i32)) type false,
             grad := grad, bwd := bwd }
  | .arraySet ref arr index value => do
    let a ← genExpr ctx arr
    let i ← genExpr ctx index
    let v ← genExpr ctx value
    let type := value.type
    let gradType ← monadLift (typeG type)
    let grad := ctx.fwdVoid
    let bwd ← bwdGrad ctx e
    if becomesMutable type then
      let aBwd ← getL a.bwd
      let iT ← untape ctx index.label
      let vBwd ← getL v.bwd
      pushBwd [.arraySet aBwd iT (.f64Const 0),
               .localSet v.bwd (.f64Add vBwd (.arrayGet aBwd iT gradType false))]
      pure { fwd := .arraySet a.fwd i.fwd v.fwd, grad := grad, bwd := bwd }
    else if isUnit gradType then
      pure { fwd := .arraySet a.fwd i.fwd v.fwd, grad := grad, bwd := bwd }
    else
      let field ← match ctx.tape.sets.get ref with
        | none => throw "unwrap: missing set tape field"
        | some f => pure f
      let aBwd ← getL a.bwd
      let iT ← untape ctx index.label
      let fieldGet ← getL (ctx.bwdFields.getD field 0)
      pushBwd [.arraySet aBwd iT fieldGet]
      let indexVar ← makeFwd .i32
      let arrGradGet ← fwdGetL a.grad
      let indexVarGet ← fwdGetL indexVar
      let valGradGet ← fwdGetL v.grad
      let children : List GenExpr := [
        .arraySet a.fwd (.localTee indexVar i.fwd .i32) v.fwd,
        .localSet (ctx.fwdFields.getD field 0)
          (.arrayGet arrGradGet indexVarGet gradType false),
        .arraySet arrGradGet indexVarGet valGradGet]
      pure { fwd := .blockE none children none, grad := grad, bwd := bwd }
  | .arrayLen _ arr => do
    let a ← genExpr ctx arr
    pure { fwd := .arrayLen a.fwd, grad := ctx.fwdVoid, bwd := ctx.bwdVoid }
  | .unsupported _ id =>
    throw ("Unsupported expression ID: " ++ toString id) : AdM GenResult)
  genWrap ctx e r

/-- Model of `Autodiff.block`'s traversal: emit all children but the last,
keeping their forward expressions, then emit the last child (the empty case
mirrors the `util.unwrap` on `children.pop()` and is unreachable, since
`genExpr` handles empty blocks before calling this). -/
def genBlockChildren (ctx : AdContext) : List Expr → AdM (List GenExpr × GenResult)
  | [] => throw "unwrap: empty block"
  | [c] => do
    let r ← genExpr ctx c
    pure ([], r)
  | c :: cs => do
    let r ← genExpr ctx c
    let (fs, last) ← genBlockChildren ctx cs
    pure (r.fwd :: fs, last)

/-- Emit all call operands in order. -/
def genOperands (ctx : AdContext) : List Expr → AdM (List GenResult)
  | [] => pure []
  | e :: es => do
    let r ← genExpr ctx e
    let rs ← genOperands ctx es
    pure (r :: rs)

end

/-- One step of the `Autodiff` constructor's loop over parameters: track the
running gradient-parameter index and build the parameter's `Var` entry. -/
def adParamStep (params : List ValType) (acc : Nat × List VarSlot)
    (type : ValType) : Except String (Nat × List VarSlot) := do
  let bwd := acc.1
  let g ← typeG type
  let gradIndex := if ¬ isUnit g then acc.1 + 1 else acc.1
  pure (gradIndex,
    acc.2 ++ [{ type := type, fwd := acc.2.length, grad := params.length + bwd,
                bwd := bwd }])

/-- One step of the `Autodiff` constructor's loop over declared locals:
push the primal and gradient local types and build the `Var` entry. -/
def adLocalStep (acc : List ValType × List ValType × List VarSlot)
    (type : ValType) : Except String (List ValType × List ValType × List VarSlot) := do
  let (fwdVars, bwdVars, slots) := acc
  let fwd := fwdVars.length
  let fwdVars := fwdVars ++ [type]
  let gradType ← typeG type
  let grad := fwdVars.length
  let fwdVars := fwdVars ++ [gradType]
  let bwd := bwdVars.length
  let bwdVars := bwdVars ++ [gradType]
  pure (fwdVars, bwdVars,
    slots ++ [{ type := type, fwd := fwd, grad := grad, bwd := bwd }])

/-- One step of the `Autodiff` constructor's loop over tape struct fields:
allocate a forward and a backward local for the field. -/
def adFieldStep (acc : List ValType × List ValType × List Nat × List Nat)
    (tf : ValType × Bool) : List ValType × List ValType × List Nat × List Nat :=
  let (fwdVars, bwdVars, fwdFields, bwdFields) := acc
  (fwdVars ++ [tf.1], bwdVars ++ [tf.1],
   fwdFields ++ [fwdVars.length], bwdFields ++ [bwdVars.length])

/-- Model of the `Autodiff` constructor: computes signatures, allocates the
initial forward/backward locals (variables, tape-field slots, sentinels) and
the variable table. -/
def mkAutodiff (names : List (String × NamePair)) (f : Func) (tape : Tape) :
    Except String (AdContext × AdState) := do
  let params := expandType f.params
  let results := expandType f.results
  let paramsGrad ← tupleG params
  let resultsGrad ← tupleG results
  let t := ValType.ref false (.struct tape.structFields)
  let fwdParams := params ++ paramsGrad
  let bwdParams := paramsGrad ++ resultsGrad ++ [t]
  let paramSlots ← (do pure (← params.foldlM (adParamStep params) (0, [])).2)
  let trip ← f.vars.foldlM adLocalStep (fwdParams, bwdParams, [])
  let localSlots := trip.2.2
  let quad := tape.structFields.foldl adFieldStep (trip.1, trip.2.1, [], [])
  let fwdVars := quad.1
  let bwdVars := quad.2.1
  let fwdFields := quad.2.2.1
  let bwdFields := quad.2.2.2
  let fwdZeroF64 := fwdVars.length
  let fwdVars := fwdVars ++ [ValType.f64]
  let fwdVoid := fwdVars.length
  let fwdVars := fwdVars ++ [unit]
  let bwdVoid := bwdVars.length
  let bwdVars := bwdVars ++ [unit]
  pure ({ names := names, tape := tape, params := params, results := results,
          paramsGrad := paramsGrad, resultsGrad := resultsGrad,
          fwdParams := fwdParams, bwdParams := bwdParams,
          fwdFields := fwdFields, bwdFields := bwdFields,
          fwdZeroF64 := fwdZeroF64, fwdVoid := fwdVoid, bwdVoid := bwdVoid },
        { vars := paramSlots ++ localSlots, fwdVars := fwdVars, bwdVars := bwdVars,
          bwd := [] })

/-- A function added to the module by the transformation
(`mod.addFunction(name, params, results, varTypes, body)`). -/
structure GenFunc where
  name : String
  params : ValType
  results : ValType
  varTypes : List ValType
  body : GenExpr

/-- Model of the per-function body of the driver loop in `autodiff`: build
the `Autodiff` instance, emit the translated body, and assemble the forward
and backward functions. -/
def genPair (names : List (String × NamePair)) (f : Func) (tape : Tape) :
    Except String (GenFunc × GenFunc) := do
  let nm ← match lookupStr names f.name with
    | none => throw "unwrap: missing names"
    | some nm => pure nm
  let cs ← mkAutodiff names f tape
  let ctx := cs.1
  let s0 := cs.2
  let tapeVar := ctx.bwdParams.length - 1
  let rs1 ← (genExpr ctx f.body).run s0
  let r := rs1.1
  let s1 := rs1.2
  let os2 ← (makeFwd f.results).run s1
  let out := os2.1
  let s2 := os2.2
  let fwdResult := createType (ctx.results ++ ctx.resultsGrad ++
    [s2.bwdVars.getD tapeVar ValType.auto])
  let outGet := GenExpr.localGet out (s2.fwdVars.getD out ValType.auto)
  let fwdGradGet := GenExpr.localGet r.grad (s2.fwdVars.getD r.grad ValType.auto)
  let fwdBodyChildren : List GenExpr := [
    (if ctx.results.length = 0 then r.fwd else .localSet out r.fwd),
    tupleMake (ctx.results.enum.map (fun p => GenExpr.tupleExtract outGet p.1) ++
      ctx.resultsGrad.enum.map (fun p => GenExpr.tupleExtract fwdGradGet p.1) ++
      [GenExpr.structNew
        (ctx.fwdFields.map (fun index =>
          GenExpr.localGet index (s2.fwdVars.getD index ValType.auto)))
        (.struct tape.structFields)])]
  let fwdFunc : GenFunc := {
    name := nm.fwd,
    params := createType ctx.fwdParams,
    results := fwdResult,
    varTypes := s2.fwdVars.drop ctx.fwdParams.length,
    body := .blockE none fwdBodyChildren (some fwdResult) }
  let bwdResult := createType ctx.paramsGrad
  let tapeGet := GenExpr.localGet tapeVar (s2.bwdVars.getD tapeVar ValType.auto)
  let bwdBodyChildren : List GenExpr :=
    (ctx.bwdFields.enum.map (fun p =>
      GenExpr.localSet p.2
        (.structGet p.1 tapeGet (s2.bwdVars.getD p.2 ValType.auto)))) ++
    (if ctx.resultsGrad.length = 0 then [] else
      [GenExpr.localSet r.bwd (tupleMake (ctx.resultsGrad.enum.map (fun p =>
        GenExpr.localGet (ctx.paramsGrad.length + p.1)
          (s2.bwdVars.getD (ctx.paramsGrad.length + p.1) ValType.auto))))]) ++
    s2.bwd.reverse ++
    (if ctx.paramsGrad.length = 0 then [] else
      [tupleMake (ctx.paramsGrad.enum.map (fun p =>
        GenExpr.localGet p.1 (s2.bwdVars.getD p.1 ValType.auto)))])
  let bwdFunc : GenFunc := {
    name := nm.bwd,
    params := createType ctx.bwdParams,
    results := bwdResult,
    varTypes := s2.bwdVars.drop ctx.bwdParams.length,
    body := .blockE none bwdBodyChildren (some bwdResult) }
  pure (fwdFunc, bwdFunc)

/-- The generation loop of `autodiff`: for each function in order, generate
and add the forward/backward pair; on the first exception, stop, leaving the
functions added so far in the module.  The second component is the list of
functions that have been added to the module. -/
def autodiffGo (names : List (String × NamePair)) :
    List (Func × Tape) → List GenFunc → Except String Unit × List GenFunc
  | [], added => (.ok (), added)
  | (f, tape) :: rest, added =>
    match genPair names f tape with
    | .error e => (.error e, added)
    | .ok (fwdF, bwdF) => autodiffGo names rest (added ++ [fwdF, bwdF])

/-- Model of the exported `autodiff` entry point.  The first component is
the overall outcome (`ok` or the JS exception message); the second is the
list of functions that were added to the module before the outcome was
reached, since in the code the module is mutated in place as the loop
progresses. -/
def autodiff (mod : Module) : Except String Unit × List GenFunc :=
  match makeTapes mod with
  | .error e => (.error e, [])
  | .ok tapes =>
    let names := makeNames (mod.functions.map (·.name))
    autodiffGo names (mod.functions.zip tapes) []

/-! ### Concrete functions used by the planner claims (they mirror the
functions constructed in the repository's tape tests) -/

/-- The division function: `foo(x: f64, y: f64): f64 = x / y`, with the two
parameter reads labelled 1 and 2 and the division labelled 3. -/
def divFunc : Func :=
  { name := "foo", params := .tuple [.f64, .f64], results := .f64, vars := [],
    body := .binary 3 .divF64 (.localGet 1 0 .f64) (.localGet 2 1 .f64) }

/-- The squaring function `foo(x: f64): f64 = x * x` with two distinct
`local.get 0` nodes (labels 1 and 2) multiplied at label 3. -/
def squareFunc : Func :=
  { name := "foo", params := .f64, results := .f64, vars := [],
    body := .binary 3 .mulF64 (.localGet 1 0 .f64) (.localGet 2 0 .f64) }

/-- A function with one parameter and one declared (never assigned) local:
`foo(x: f64): f64 = x * l` where `l` is the unset local. -/
def unsetVarFunc : Func :=
  { name := "foo", params := .f64, results := .f64, vars := [.f64],
    body := .binary 3 .mulF64 (.localGet 1 0 .f64) (.localGet 2 1 .f64) }

/-- The function used to refute claim C8 as stated: it performs
`array.set a 1 42.0` on an f64-array parameter `a`.  The planner assigns the
non-zero constant `42` (label 3) a Field-kind gradient load (field 1), and
the generator accepts it without raising. -/
def arrSetFunc : Func :=
  { name := "g", params := .ref true (.array .f64 true), results := .noneT,
    vars := [],
    body := .arraySet 5 (.localGet 1 0 (.ref true (.array .f64 true)))
      (.const 2 (.num 1) .i32) (.const 3 (.num 42) .f64) }

/-- The tape plan the planner produces for `arrSetFunc`. -/
def arrSetTape : Tape :=
  { fields := 3,
    stores := [],
    grads := [(1, 0), (3, 1)],
    sets := [(5, 2)],
    calls := [],
    loads := [(2, .const 1)],
    gradLoads := [(1, .field 0), (3, .field 1)],
    structFields := [(.ref true (.array .f64 true), false), (.f64, false), (.f64, false)] }

/-- A concrete generator context carrying the plan of `arrSetFunc`, used to
instantiate the amended claim C8. -/
def cexCtx : AdContext :=
  { names := [], tape := arrSetTape, params := [], results := [],
    paramsGrad := [], resultsGrad := [], fwdParams := [], bwdParams := [],
    fwdFields := [], bwdFields := [10, 11, 12],
    fwdZeroF64 := 0, fwdVoid := 0, bwdVoid := 0 }

/-- A concrete generator state for the witness. -/
def cexSt : AdState := { vars := [], fwdVars := [], bwdVars := [], bwd := [] }

/-- All minted forward/backward names of a `makeNames` result, in order. -/
def mintedNames : List (String × NamePair) → List String
  | [] => []
  | p :: ps => p.2.fwd :: p.2.bwd :: mintedNames ps

/-- The identity function `f(x: f64): f64 = x`. -/
def identFunc : Func :=
  { name := "f", params := .f64, results := .f64, vars := [],
    body := .localGet 1 0 .f64 }

/-- A module that exports its function `f` under the external name `f_fwd`,
so the export name collides with the name the driver will mint. -/
def c7mod : Module := { functions := [identFunc], exports := [("f_fwd", "f")] }

/-- The property claimed by C7 of a module: when the transformation
succeeds, the minted forward/backward names are pairwise distinct and
collide neither with any preexisting function name nor with any preexisting
export name. -/
def namesAvoidExports (mod : Module) : Prop :=
  (autodiff mod).1.isOk = true →
    (mintedNames (makeNames (mod.functions.map Func.name))).Nodup ∧
    ∀ x ∈ mintedNames (makeNames (mod.functions.map Func.name)),
      x ∉ mod.functions.map Func.name ∧ x ∉ mod.exports.map Prod.fst

/-- The function `a(x: f64): f64 = x`; both planning and generation succeed
on it. -/
def funcA : Func :=
  { name := "a", params := .f64, results := .f64, vars := [],
    body := .localGet 1 0 .f64 }

/-- A function whose body is an i32 addition (binaryen op id 25): the
planner's `binary` rule accepts any operator it does not treat specially, so
planning succeeds, but the generator's `binary` rule rejects every operator
other than the four f64 ones, so generation fails. -/
def i32AddFunc : Func :=
  { name := "b", params := .tuple [.i32, .i32], results := .i32, vars := [],
    body := .binary 10 (.other 25 .i32) (.localGet 11 0 .i32) (.localGet 12 1 .i32) }

/-- A module on which planning succeeds for both functions but generation
fails on the second. -/
def c2mod : Module := { functions := [funcA, i32AddFunc], exports := [] }

/-- The property claimed by C2 of a module: whenever the transformation
raises an error, no generated functions are present in the module. -/
def abortsCleanly (mod : Module) : Prop :=
  (autodiff mod).1.isOk = false → (autodiff mod).2 = []

/-- A function whose body is an unsupported expression kind, so planning
itself fails. -/
def badPlanFunc : Func :=
  { name := "u", params := .f64, results := .f64, vars := [],
    body := .unsupported 7 99 }

/-- A generator computation only ever appends to the backward local-type
vector: whenever it succeeds, the initial `bwdVars` is a prefix of the final
one.  (`Autodiff` never writes into `bwdVars` except by `push`.) -/
def BwdMono {α : Type} (m : AdM α) : Prop :=
  ∀ (s : AdState) (r : α) (s2 : AdState), m s = .ok (r, s2) →
    s.bwdVars <+: s2.bwdVars

/-- The multiset of tape field indices recorded in a planner state, across
the `stores`, `grads`, `sets` and `calls` maps. -/
def planIndices (s : TaperState) : List Nat :=
  s.stores.values ++ s.grads.values ++ s.sets.values ++ s.calls.values

/-- The planner-state invariant claimed by C9: the recorded field indices
are, up to order, exactly `0, 1, ..., fields - 1` with no repetition. -/
def planINV (s : TaperState) : Prop := List.Perm (planIndices s) (List.range s.fields)

/-- The keys on which the planner performs unconditional
allocate-and-insert (`sets` and `calls`): revisiting such a key would lose a
field index, so the invariant proof tracks them. -/
def skeys (s : TaperState) : List Nat := s.sets.keys ++ s.calls.keys

/-- A planner computation `m` whose unconditional key insertions are drawn
from the label set `L` preserves the field-index invariant when run on a
state whose `sets`/`calls` keys are disjoint from `L`. -/
def Pres {α : Type} (m : TaperM α) (L : List Nat) : Prop :=
  ∀ (s : TaperState) (r : α) (s2 : TaperState), m s = .ok (r, s2) →
    planINV s → L.Nodup → (∀ x ∈ L, x ∉ skeys s) →
    planINV s2 ∧ skeys s2 ⊆ skeys s ++ L

/-- The tape plan of the identity function `a`: no fields, all maps empty.
Used as the concrete tape for the C1 signature witness. -/
def tapeA : Tape :=
  { fields := 0, stores := [], grads := [], sets := [], calls := [],
    loads := [], gradLoads := [], structFields := [] }

/-- The forward function generated for `funcA` (by computation). -/
def fwdA : GenFunc :=
  match genPair (makeNames ["a"]) funcA tapeA with
  | .ok p => p.1
  | .error _ => { name := "", params := .noneT, results := .noneT,
                  varTypes := [], body := .f64Const 0 }

/-- The backward function generated for `funcA` (by computation). -/
def bwdA : GenFunc :=
  match genPair (makeNames ["a"]) funcA tapeA with
  | .ok p => p.2
  | .error _ => { name := "", params := .noneT, results := .noneT,
                  varTypes := [], body := .f64Const 0 }

/-- The multiset of tape field indices recorded in a finished tape plan,
across the `stores`, `grads`, `sets` and `calls` maps. -/
def tapeIndices (t : Tape) : List Nat :=
  t.stores.values ++ t.grads.values ++ t.sets.values ++ t.calls.values

/-- A module for the C9 witness: the division function alone. -/
def c9mod : Module := { functions := [divFunc], exports := [] }

/-! ## Theorems -/

@[simp] theorem ok_bind {α β ε : Type} (a : α) (f : α → Except ε β) :
    (Except.ok a >>= f) = f a := rfl

@[simp] theorem error_bind {α β ε : Type} (e : ε) (f : α → Except ε β) :
    ((Except.error e : Except ε α) >>= f) = .error e := rfl

@[simp] theorem map_ok {α β ε : Type} (g : α → β) (a : α) :
    (g <$> (Except.ok a : Except ε α)) = .ok (g a) := rfl

@[simp] theorem map_error {α β ε : Type} (g : α → β) (e : ε) :
    (g <$> (Except.error e : Except ε α)) = .error e := rfl

@[simp] theorem pure_except {α ε : Type} (a : α) :
    (pure a : Except ε α) = .ok a := rfl

@[simp] theorem except_bind_ok {α β ε : Type} (a : α) (f : α → Except ε β) :
    Except.bind (.ok a) f = f a := rfl

@[simp] theorem except_bind_error {α β ε : Type} (e : ε) (f : α → Except ε β) :
    Except.bind (.error e) f = .error e := rfl

@[simp] theorem except_pure {α ε : Type} (a : α) :
    (Except.pure a : Except ε α) = .ok a := rfl

@[simp] theorem run_get {σ ε : Type} (s : σ) :
    (get : StateT σ (Except ε) σ) s = .ok (s, s) := rfl

@[simp] theorem run_set {σ ε : Type} (s s' : σ) :
    (set s' : StateT σ (Except ε) PUnit) s = .ok (⟨⟩, s') := rfl

@[simp] theorem run_pure {σ ε α : Type} (a : α) (s : σ) :
    (StateT.pure a : StateT σ (Except ε) α) s = .ok (a, s) := rfl

@[simp] theorem run_bind {σ ε α β : Type} (m : StateT σ (Except ε) α)
    (f : α → StateT σ (Except ε) β) (s : σ) :
    (StateT.bind m f) s = Except.bind (m s) (fun p => f p.1 p.2) := rfl

@[simp] theorem run_modify {σ ε : Type} (g : σ → σ) (s : σ) :
    (modify g : StateT σ (Except ε) PUnit) s = .ok (⟨⟩, g s) := rfl

@[simp] theorem run_monadLift {σ ε α : Type} (m : Except ε α) (s : σ) :
    (monadLift m : StateT σ (Except ε) α) s = Except.bind m (fun a => .ok (a, s)) := by
  cases m <;> rfl

@[simp] theorem run_throw {σ ε α : Type} (e : ε) (s : σ) :
    (throw e : StateT σ (Except ε) α) s = .error e := rfl

theorem becomesMutable_iff (t : ValType) :
    becomesMutable t = true ↔ (t = .f32 ∨ t = .f64) := by
  cases t <;> simp [becomesMutable]

/-- Claim C3: the type mapper maps f32 to f32, f64 to f64, i32 and i64 to
unit (the empty tuple), and maps tuples element-wise, dropping the
components whose gradient is unit; in particular (i32, f64) maps to f64 and
(f64, i32, f32) maps to (f64, f32).  (`isUnit g` is the identity test
against `unit`; `isUnit_iff` shows it coincides with `g = unit`.) -/
theorem claim3_type_mapper :
    typeG .f32 = .ok .f32 ∧ typeG .f64 = .ok .f64 ∧
    typeG .i32 = .ok unit ∧ typeG .i64 = .ok unit ∧
    (∀ ts gs, mapG ts = .ok gs →
      tupleG ts = .ok (gs.filter (fun g => !isUnit g)) ∧
      typeG (.tuple ts) = .ok (createType (gs.filter (fun g => !isUnit g)))) ∧
    typeG (.tuple [.i32, .f64]) = .ok .f64 ∧
    typeG (.tuple [.f64, .i32, .f32]) = .ok (.tuple [.f64, .f32]) := by
  refine ⟨rfl, rfl, rfl, rfl, ?_, rfl, rfl⟩
  intro ts gs h
  constructor
  · simp [tupleG, h, Except.bind]
  · simp [typeG, h, Except.bind]

theorem claim3_type_mapper_witness :
    mapG [.i32, .f64] = .ok [unit, .f64] ∧
    tupleG [.i32, .f64] = .ok [.f64] ∧
    typeG (.tuple [.i32, .f64]) = .ok (createType [.f64]) :=
  ⟨rfl, (claim3_type_mapper.2.2.2.2.1 [.i32, .f64] [unit, .f64] rfl).1,
    (claim3_type_mapper.2.2.2.2.1 [.i32, .f64] [unit, .f64] rfl).2⟩

theorem fieldsG_spec (fields gfs : List (ValType × Bool))
    (h : fieldsG fields = .ok gfs) :
    List.Forall₂ (fun fd gd : ValType × Bool =>
      typeG fd.1 = .ok gd.1 ∧
      (gd.2 = true ↔ (fd.2 = true ∨ fd.1 = .f32 ∨ fd.1 = .f64))) fields gfs := by
  induction fields generalizing gfs with
  | nil => cases h; exact .nil
  | cons fd fds ih =>
    obtain ⟨t, m⟩ := fd
    simp only [fieldsG] at h
    cases ht : typeG t with
    | error e => simp [ht] at h
    | ok g =>
      rw [ht] at h
      cases hfs : fieldsG fds with
      | error e => simp [hfs] at h
      | ok gtail =>
        simp only [hfs, ok_bind, pure_except, Except.ok.injEq] at h
        subst h
        refine .cons ⟨ht, ?_⟩ (ih gtail hfs)
        simp [Bool.or_eq_true, becomesMutable_iff]

/-- If the gradient of a non-tuple type is defined and is not unit, then the
gradient becomes mutable exactly when the primal does (wasm struct fields
and array elements are never tuple-typed, so this covers every type that
can appear there). -/
theorem becomesMutable_typeG (t g : ValType) (hnt : ∀ ts, t ≠ .tuple ts)
    (h : typeG t = .ok g) (hu : isUnit g = false) :
    becomesMutable g = becomesMutable t := by
  cases t with
  | ref n heap =>
    simp only [typeG] at h
    cases hh : heapTypeG heap with
    | error e => simp [hh] at h
    | ok hg =>
      simp only [hh, ok_bind, pure_except, Except.ok.injEq] at h
      subst h
      rfl
  | tuple ts => exact absurd rfl (hnt ts)
  | i32 => cases h; exact absurd hu (by simp [isUnit, unit, createType])
  | i64 => cases h; exact absurd hu (by simp [isUnit, unit, createType])
  | f32 => cases h; rfl
  | f64 => cases h; rfl
  | noneT => cases h; rfl
  | unreachableT => cases h; rfl
  | _ => exact absurd h (by simp [typeG])

/-- Claim C4: gradient mapping of heap types.  A struct maps to the struct
of the field gradients with unit-gradient fields omitted, each surviving
field being mutable iff the original field was mutable or its primal type is
f32 or f64.  An array whose element gradient is unit maps to the empty
struct; otherwise it maps to the array of the element gradient, mutable
whenever the primal element was mutable or the element type is f32 or f64
(stated for non-tuple element types, the only ones wasm arrays admit). -/
theorem claim4_heap_type_mapper :
    (∀ fields gfs, fieldsG fields = .ok gfs →
      heapTypeG (.struct fields) = .ok (.struct (gfs.filter (fun f => !isUnit f.1))) ∧
      List.Forall₂ (fun fd gd : ValType × Bool =>
        typeG fd.1 = .ok gd.1 ∧
        (gd.2 = true ↔ (fd.2 = true ∨ fd.1 = .f32 ∨ fd.1 = .f64))) fields gfs) ∧
    (∀ elem m, typeG elem = .ok unit →
      heapTypeG (.array elem m) = .ok (.struct [])) ∧
    (∀ elem m g, (∀ ts, elem ≠ .tuple ts) → typeG elem = .ok g →
      isUnit g = false →
      heapTypeG (.array elem m) = .ok (.array g (m || becomesMutable elem)) ∧
      ((m || becomesMutable elem) = true ↔
        (m = true ∨ elem = .f32 ∨ elem = .f64))) := by
  refine ⟨?_, ?_, ?_⟩
  · intro fields gfs h
    refine ⟨?_, fieldsG_spec fields gfs h⟩
    simp [heapTypeG, h]
  · intro elem m h
    simp [heapTypeG, h, isUnit, unit, createType]
  · intro elem m g hnt h hu
    constructor
    · rw [← becomesMutable_typeG elem g hnt h hu]
      simp [heapTypeG, h, hu]
    · simp [Bool.or_eq_true, becomesMutable_iff]

theorem claim4_heap_type_mapper_witness :
    (heapTypeG (.struct [(.f64, false), (.i32, true), (.f32, true)]) =
      .ok (.struct [(.f64, true), (.f32, true)])) ∧
    heapTypeG (.array .i64 false) = .ok (.struct []) ∧
    heapTypeG (.array .f64 false) = .ok (.array .f64 true) := by
  refine ⟨?_, ?_, ?_⟩
  · have h := (claim4_heap_type_mapper.1 [(.f64, false), (.i32, true), (.f32, true)]
      [(.f64, true), (unit, true), (.f32, true)] rfl).1
    exact h
  · exact claim4_heap_type_mapper.2.1 .i64 false rfl
  · exact (claim4_heap_type_mapper.2.2 .f64 false .f64 (fun ts h => by cases h) rfl rfl).1

/-- Claim C5: for an f64 division the planner plans the left operand without
saving it, saves the right operand, and marks the division expression itself
(first conjunct, the planner's rule as a program equality); consequently for
the function `x / y` the plan has exactly two tape fields, field 0 storing
the first read of the right operand and field 1 storing the quotient, with
the corresponding `Field` loads (second conjunct). -/
theorem claim5_division :
    (∀ (ref : Nat) (l r : Expr),
      taperExpr (.binary ref .divF64 l r) = do
        let _ ← taperExpr l
        let vr ← taperExpr r
        let _ ← mark r.label vr
        mark ref (.expression ref)) ∧
    makeTapes { functions := [divFunc], exports := [] } = .ok [{
      fields := 2,
      stores := [(2, 0), (3, 1)],
      grads := [], sets := [], calls := [],
      loads := [(2, .field 0), (3, .field 1)],
      gradLoads := [],
      structFields := [(.f64, false), (.f64, false)] }] :=
  ⟨fun _ _ _ => rfl, rfl⟩

/-- Claim C6: at a `local.get`, a variable whose symbolic value is still
`Param` is lifted to `Expression(this get)` (first conjunct), and any later
read of the variable while its value is an `Expression` returns that same
`Expression` and leaves the state unchanged (second conjunct); consequently
for `x * x` (two distinct reads of parameter 0) the plan has exactly one
tape field, stored at the first get, and the loads of both gets refer to
field 0 (third conjunct). -/
theorem claim6_param_lifting :
    (∀ (s : TaperState) (ref i : Nat) (t : ValType), s.vars[i]? = some .param →
      (taperExpr (.localGet ref i t)).run s =
        .ok (.expression ref, { s with vars := s.vars.set i (.expression ref) })) ∧
    (∀ (s : TaperState) (ref i : Nat) (t : ValType) (r0 : Nat),
      s.vars[i]? = some (.expression r0) →
      (taperExpr (.localGet ref i t)).run s = .ok (.expression r0, s)) ∧
    makeTapes { functions := [squareFunc], exports := [] } = .ok [{
      fields := 1,
      stores := [(1, 0)],
      grads := [], sets := [], calls := [],
      loads := [(1, .field 0), (2, .field 0)],
      gradLoads := [],
      structFields := [(.f64, false)] }] := by
  refine ⟨?_, ?_, rfl⟩
  · intro s ref i t h
    simp [taperExpr, StateT.run, bind, h, pure]
  · intro s ref i t r0 h
    simp [taperExpr, StateT.run, bind, h, pure]

theorem claim6_param_lifting_witness :
    ((initialTaperState squareFunc).vars[0]? = some .param ∧
      (taperExpr (.localGet 1 0 .f64)).run (initialTaperState squareFunc) =
        .ok (.expression 1, { initialTaperState squareFunc with
          vars := (initialTaperState squareFunc).vars.set 0 (.expression 1) })) ∧
    ({ initialTaperState squareFunc with
        vars := [Value.expression 1] }.vars[0]? = some (.expression 1) ∧
      (taperExpr (.localGet 2 0 .f64)).run { initialTaperState squareFunc with
          vars := [Value.expression 1] } =
        .ok (.expression 1, { initialTaperState squareFunc with
          vars := [Value.expression 1] })) :=
  ⟨⟨rfl, claim6_param_lifting.1 (initialTaperState squareFunc) 1 0 .f64 rfl⟩,
    ⟨rfl, claim6_param_lifting.2.1 { initialTaperState squareFunc with
      vars := [Value.expression 1] } 2 0 .f64 1 rfl⟩⟩

/-- Claim C10: a declared non-parameter local starts with symbolic value
`Const 0` (first conjunct); a `local.get` of a variable whose value is a
constant returns that constant and changes nothing (second conjunct); and
marking a constant value records a `Const` load and allocates no tape field
(third conjunct: `fields` and `stores` are unchanged).  Consequently the
plan for `x * l` with `l` an unset local has a single tape field for `x`'s
read and a `Const 0` load for `l`'s read (fourth conjunct). -/
theorem claim10_unset_local :
    (∀ (f : Func) (i : Nat), i < f.vars.length →
      (initialTaperState f).vars[(expandType f.params).length + i]? =
        some (.const 0)) ∧
    (∀ (s : TaperState) (ref i : Nat) (t : ValType) (v : Int),
      s.vars[i]? = some (.const v) →
      (taperExpr (.localGet ref i t)).run s = .ok (.const v, s)) ∧
    (∀ (s : TaperState) (ref : Nat) (v : Int),
      (mark ref (.const v)).run s =
        .ok (.const v, { s with loads := s.loads.set ref (.const v) })) ∧
    makeTapes { functions := [unsetVarFunc], exports := [] } = .ok [{
      fields := 1,
      stores := [(1, 0)],
      grads := [], sets := [], calls := [],
      loads := [(1, .field 0), (2, .const 0)],
      gradLoads := [],
      structFields := [(.f64, false)] }] := by
  refine ⟨?_, ?_, ?_, rfl⟩
  · intro f i hi
    simp only [initialTaperState, initialVars, List.map_const]
    rw [List.getElem?_append_right (by simp)]
    simp [List.getElem?_replicate, hi]
  · intro s ref i t v h
    simp [taperExpr, StateT.run, bind, h, pure]
  · intro s ref v
    simp [mark, StateT.run, bind, pure]

theorem claim10_unset_local_witness :
    (0 < unsetVarFunc.vars.length ∧
      (initialTaperState unsetVarFunc).vars[1]? = some (.const 0)) ∧
    ((initialTaperState unsetVarFunc).vars[1]? = some (.const 0) ∧
      (taperExpr (.localGet 2 1 .f64)).run (initialTaperState unsetVarFunc) =
        .ok (.const 0, initialTaperState unsetVarFunc)) ∧
    (mark 2 (.const 0)).run (initialTaperState unsetVarFunc) =
      .ok (.const 0, { initialTaperState unsetVarFunc with
        loads := (initialTaperState unsetVarFunc).loads.set 2 (.const 0) }) :=
  ⟨⟨by decide, claim10_unset_local.1 unsetVarFunc 0 (by decide)⟩,
    ⟨rfl, claim10_unset_local.2.1 (initialTaperState unsetVarFunc) 2 1 .f64 0 rfl⟩,
    claim10_unset_local.2.2.1 (initialTaperState unsetVarFunc) 2 0⟩

/-- Running `makeBwd` never raises. -/
theorem makeBwd_ok (t : ValType) (s : AdState) :
    (makeBwd t) s = .ok (s.bwdVars.length, { s with bwdVars := s.bwdVars ++ [t] }) := rfl

/-- Claim C8 (amended): given that the gradient type of the expression maps
successfully, the generator's `bwdGrad` raises the "Non-zero gradient
constant" error exactly when the planner assigned a Const-kind gradient load
with non-zero value to the expression; in particular a Field-kind gradient
load never raises it. -/
theorem claim8_nonzero_gradient_constant (ctx : AdContext) (e : Expr)
    (s : AdState) (g : ValType) (hg : typeG e.type = .ok g) :
    (bwdGrad ctx e) s = .error "Non-zero gradient constant" ↔
      ∃ v, ctx.tape.gradLoads.get e.label = some (.const v) ∧ v ≠ 0 := by
  simp only [bwdGrad, StateT.run, bind, run_bind, run_monadLift, hg, except_bind_ok]
  cases hl : ctx.tape.gradLoads.get e.label with
  | none =>
    simp [makeBwd_ok]
  | some load =>
    cases load with
    | const v =>
      by_cases hv : v = 0
      · subst hv
        simp [makeBwd_ok]
      · simp [hv, run_throw]
    | field i =>
      simp [getL, pure, StateT.pure]

/-- Claim C8 is false as stated: in the plan for `arrSetFunc` the planner
assigns the constant expression at label 3 (value 42 ≠ 0) a Field-kind
gradient load, yet `bwdGrad` succeeds on it without raising the
NonZeroGradientConstant error — the error is raised for Const-kind loads,
never for Field-kind loads. -/
theorem claim8_counterexample :
    makeTapes { functions := [arrSetFunc], exports := [] } = .ok [arrSetTape] ∧
    findExpr 3 arrSetFunc.body = some (.const 3 (.num 42) .f64) ∧
    arrSetTape.gradLoads.get 3 = some (.field 1) ∧
    ((mkAutodiff (makeNames ["g"]) arrSetFunc arrSetTape).bind
      (fun p => (bwdGrad p.1 (.const 3 (.num 42) .f64)) p.2)).isOk = true :=
  ⟨rfl, rfl, rfl, rfl⟩

theorem claim8_nonzero_gradient_constant_witness :
    ¬ (bwdGrad cexCtx (.const 3 (.num 42) .f64)) cexSt =
        .error "Non-zero gradient constant" := fun h => by
  obtain ⟨v, hv, hne⟩ :=
    (claim8_nonzero_gradient_constant cexCtx (.const 3 (.num 42) .f64) cexSt .f64 rfl).mp h
  have h2 : some (Load.field 1) = some (Load.const v) := hv
  injection h2 with h3
  cases h3

theorem claim5_division_witness :
    taperExpr (.binary 3 .divF64 (.localGet 1 0 .f64) (.localGet 2 1 .f64)) = (do
      let _ ← taperExpr (.localGet 1 0 .f64)
      let vr ← taperExpr (.localGet 2 1 .f64)
      let _ ← mark 2 vr
      mark 3 (.expression 3)) :=
  claim5_division.1 3 (.localGet 1 0 .f64) (.localGet 2 1 .f64)

/-! ### Name minting (C7) -/

theorem digitChar_inj (a b : Nat) (ha : a < 10) (hb : b < 10)
    (h : Nat.digitChar a = Nat.digitChar b) : a = b := by
  interval_cases a <;> interval_cases b <;> simp_all [Nat.digitChar]

theorem map_digitChar_inj : ∀ (l1 l2 : List Nat), (∀ x ∈ l1, x < 10) →
    (∀ x ∈ l2, x < 10) → l1.map Nat.digitChar = l2.map Nat.digitChar → l1 = l2
  | [], [], _, _, _ => rfl
  | [], _ :: _, _, _, h => by simp at h
  | _ :: _, [], _, _, h => by simp at h
  | a :: l1, b :: l2, h1, h2, h => by
    simp only [List.map_cons, List.cons.injEq] at h
    have := digitChar_inj a b (h1 a (by simp)) (h2 b (by simp)) h.1
    have := map_digitChar_inj l1 l2 (fun x hx => h1 x (by simp [hx]))
      (fun x hx => h2 x (by simp [hx])) h.2
    simp_all

theorem decRepr_inj (m n : Nat) (h : decRepr m = decRepr n) : m = n := by
  have hd : decDigits m = decDigits n := congrArg String.data h
  simp only [decDigits] at hd
  have hm := List.reverse_injective hd
  have := map_digitChar_inj (Nat.digits 10 m) (Nat.digits 10 n)
    (fun x hx => Nat.digits_lt_base (by norm_num) hx)
    (fun x hx => Nat.digits_lt_base (by norm_num) hx) hm
  exact Nat.digits_inj_iff.mp this

theorem decRepr_pos_length (n : Nat) (h : n ≠ 0) : 0 < (decRepr n).length := by
  have hne : Nat.digits 10 n ≠ [] := Nat.digits_ne_nil_iff_ne_zero.mpr h
  have : (decRepr n).length = (Nat.digits 10 n).length := by
    simp [decRepr, decDigits, String.length]
  rw [this]
  exact List.length_pos.mpr hne

theorem nodup_length_le (l s : List String) (hn : l.Nodup) (hsub : l ⊆ s) :
    l.length ≤ s.length := by
  have h1 : l.toFinset.card = l.length := List.toFinset_card_of_nodup hn
  have h2 : l.toFinset ⊆ s.toFinset := by
    intro x hx
    simp only [List.mem_toFinset] at *
    exact hsub hx
  have h3 := Finset.card_le_card h2
  have h4 := s.toFinset_card_le
  omega

theorem namesMake_candidates_nodup (s : List String) (base : String) :
    (base :: (List.range (s.length + 1)).map
      (fun k => base ++ decRepr (k + 2))).Nodup := by
  refine List.Nodup.cons ?_ (List.Nodup.map ?_ (List.nodup_range _))
  · intro hmem
    obtain ⟨k, _, hk⟩ := List.mem_map.mp hmem
    have hlen := congrArg String.length hk
    rw [String.length_append] at hlen
    have := decRepr_pos_length (k + 2) (by omega)
    omega
  · intro k1 k2 h
    have : decRepr (k1 + 2) = decRepr (k2 + 2) := by
      have hd := congrArg String.data h
      simp only [String.data_append] at hd
      exact congrArg String.mk (List.append_cancel_left hd)
    have := decRepr_inj (k1 + 2) (k2 + 2) this
    omega

theorem contains_eq_true_iff (s : List String) (c : String) :
    s.contains c = true ↔ c ∈ s := List.elem_iff

theorem namesMake_fresh (s : List String) (base : String) :
    (namesMake s base).1 ∉ s ∧
    (namesMake s base).2 = s ++ [(namesMake s base).1] := by
  have hnodup := namesMake_candidates_nodup s base
  have hlen : (base :: (List.range (s.length + 1)).map
      (fun k => base ++ decRepr (k + 2))).length = s.length + 2 := by simp
  have hex : ∃ c ∈ base :: (List.range (s.length + 1)).map
      (fun k => base ++ decRepr (k + 2)), c ∉ s := by
    by_contra hc
    push_neg at hc
    have := nodup_length_le _ s hnodup (fun x hx => hc x hx)
    omega
  obtain ⟨c, hcmem, hcnot⟩ := hex
  have hccontains : s.contains c = false := by
    cases hh : s.contains c with
    | false => rfl
    | true => exact absurd ((contains_eq_true_iff s c).mp hh) hcnot
  have hsome : ((base :: (List.range (s.length + 1)).map
      (fun k => base ++ decRepr (k + 2))).find?
        (fun c => !(s.contains c))).isSome :=
    List.find?_isSome.mpr ⟨c, hcmem, by simp only [hccontains]; rfl⟩
  simp only [namesMake]
  cases hfind : (base :: (List.range (s.length + 1)).map
      (fun k => base ++ decRepr (k + 2))).find? (fun c => !(s.contains c)) with
  | none => rw [hfind] at hsome; cases hsome
  | some c0 =>
    have hp := List.find?_some hfind
    have hc0 : c0 ∉ s := by
      intro hmem
      rw [(contains_eq_true_iff s c0).mpr hmem] at hp
      cases hp
    exact ⟨hc0, rfl⟩

theorem mintedNames_append (a b : List (String × NamePair)) :
    mintedNames (a ++ b) = mintedNames a ++ mintedNames b := by
  induction a with
  | nil => rfl
  | cons p ps ih => simp [mintedNames, ih]

/-- Invariant of the minting loop of `makeNames`: every original name stays
in the name set, the minted names so far are pairwise distinct, and each is
in the set but not among the original names. -/
theorem makeNames_fold_spec (names : List String) :
    ∀ (l : List String) (acc : List (String × NamePair)) (s : List String),
    (∀ x ∈ names, x ∈ s) → (mintedNames acc).Nodup →
    (∀ x ∈ mintedNames acc, x ∈ s ∧ x ∉ names) →
    (mintedNames (l.foldl (fun (acc : List (String × NamePair) × List String) name =>
      let p1 := namesMake acc.2 (name ++ "_fwd")
      let p2 := namesMake p1.2 (name ++ "_bwd")
      (acc.1 ++ [(name, ⟨p1.1, p2.1⟩)], p2.2)) (acc, s)).1).Nodup ∧
    (∀ x ∈ mintedNames ((l.foldl (fun (acc : List (String × NamePair) × List String) name =>
      let p1 := namesMake acc.2 (name ++ "_fwd")
      let p2 := namesMake p1.2 (name ++ "_bwd")
      (acc.1 ++ [(name, ⟨p1.1, p2.1⟩)], p2.2)) (acc, s)).1),
      x ∉ names) := by
  intro l
  induction l with
  | nil =>
    intro acc s h1 h2 h3
    exact ⟨h2, fun x hx => (h3 x hx).2⟩
  | cons n ns ih =>
    intro acc s h1 h2 h3
    simp only [List.foldl_cons]
    obtain ⟨hf1, hf2⟩ := namesMake_fresh s (n ++ "_fwd")
    obtain ⟨hb1, hb2⟩ := namesMake_fresh (namesMake s (n ++ "_fwd")).2 (n ++ "_bwd")
    set fname := (namesMake s (n ++ "_fwd")).1 with hfname
    set bname := (namesMake (namesMake s (n ++ "_fwd")).2 (n ++ "_bwd")).1 with hbname
    have hs1 : (namesMake s (n ++ "_fwd")).2 = s ++ [fname] := hf2
    have hbnot : bname ∉ s ++ [fname] := by rw [← hs1]; exact hb1
    refine ih _ _ ?_ ?_ ?_
    · intro x hx
      rw [hb2, hs1]
      simp [h1 x hx]
    · rw [mintedNames_append]
      simp only [mintedNames]
      have hfm : fname ∉ mintedNames acc := fun hm => hf1 (h3 fname hm).1
      have hbm : bname ∉ mintedNames acc := fun hm =>
        hbnot (by simp [(h3 bname hm).1])
      have hfb : fname ≠ bname := fun hfb => hbnot (by simp [hfb])
      have : (mintedNames acc ++ [fname, bname]).Nodup := by
        rw [List.nodup_append]
        refine ⟨h2, by simp [hfb], ?_⟩
        intro x hx
        simp only [List.mem_cons, List.not_mem_nil, or_false]
        rintro (rfl | rfl)
        · exact hfm hx
        · exact hbm hx
      simpa using this
    · intro x hx
      rw [mintedNames_append] at hx
      simp only [mintedNames, List.mem_append, List.mem_cons,
        List.not_mem_nil, or_false] at hx
      rw [hb2, hs1]
      constructor
      · rcases hx with hx | rfl | rfl
        · simp [(h3 x hx).1]
        · simp
        · simp
      · rcases hx with hx | rfl | rfl
        · exact (h3 x hx).2
        · exact fun hm => hf1 (h1 _ hm)
        · exact fun hm => hbnot (by simp [h1 _ hm])

theorem namesAdd_mem (l : List String) :
    ∀ (init : List String) (x : String), (x ∈ l ∨ x ∈ init) →
      x ∈ l.foldl namesAdd init := by
  induction l with
  | nil => intro init x h; simpa using h
  | cons a as ih =>
    intro init x h
    simp only [List.foldl_cons]
    apply ih
    rcases h with h | h
    · rcases List.mem_cons.mp h with rfl | h2
      · right
        simp only [namesAdd]
        split
        · next hcont => exact (contains_eq_true_iff init x).mp hcont
        · simp
      · left; exact h2
    · right
      simp only [namesAdd]
      split
      · exact h
      · simp [h]

/-- Claim C7 (amended): the minted forward/backward names are pairwise
distinct and avoid every preexisting function name (so for a module whose
function names are distinct, all internal function names remain distinct
after the transformation); preexisting export names are not consulted by
`makeNames` and are not avoided. -/
theorem claim7_name_minting (names : List String) :
    (mintedNames (makeNames names)).Nodup ∧
    (∀ x ∈ mintedNames (makeNames names), x ∉ names) ∧
    (names.Nodup → (names ++ mintedNames (makeNames names)).Nodup) := by
  have h := makeNames_fold_spec names names [] (names.foldl namesAdd [])
    (fun x hx => namesAdd_mem names [] x (Or.inl hx))
    (by simp [mintedNames])
    (by simp [mintedNames])
  have hnodup : (mintedNames (makeNames names)).Nodup := h.1
  have hnot : ∀ x ∈ mintedNames (makeNames names), x ∉ names := h.2
  refine ⟨hnodup, hnot, fun hn => ?_⟩
  rw [List.nodup_append]
  exact ⟨hn, hnodup, fun x hx hm => hnot x hm hx⟩

theorem claim7_name_minting_witness :
    (["f", "f_fwd"] ++ mintedNames (makeNames ["f", "f_fwd"])).Nodup :=
  (claim7_name_minting ["f", "f_fwd"]).2.2 (by decide)

/-- Claim C7 is false as stated: the transformation succeeds on `c7mod`, yet
the minted name `f_fwd` coincides with the module's preexisting export name
`f_fwd` — `makeNames` receives only the function names and never consults
the export list. -/
theorem claim7_counterexample : ¬ namesAvoidExports c7mod := by
  intro h
  obtain ⟨-, h2⟩ := h (by rfl)
  have hmint : mintedNames (makeNames (c7mod.functions.map Func.name)) =
      ["f_fwd", "f_bwd"] := rfl
  have := (h2 "f_fwd" (by rw [hmint]; simp)).2
  apply this
  show "f_fwd" ∈ c7mod.exports.map Prod.fst
  simp [c7mod]

/-! ### Error propagation (C2) -/

/-- Claim C2 is false as stated: on `c2mod` the transformation raises an
error (the generator rejects the i32 addition of the second function, which
the planner had accepted), yet the forward and backward passes generated
for the first function have already been added to the module. -/
theorem claim2_counterexample : ¬ abortsCleanly c2mod := by
  intro h
  have h1 : (autodiff c2mod).1.isOk = false := rfl
  have h2 := h h1
  have h3 : (autodiff c2mod).2.length = 2 := rfl
  rw [h2] at h3
  cases h3

/-- Claim C2 (amended): an error raised during planning (`makeTapes`) aborts
the transformation before any function is added to the module; an error
raised during generation aborts immediately but leaves the forward/backward
pairs already generated for earlier functions in the module, as witnessed by
`c2mod`, where the failed transformation has added `a_fwd` and `a_bwd`. -/
theorem claim2_error_abort :
    (∀ (mod : Module) (e : String), makeTapes mod = .error e →
      autodiff mod = (.error e, [])) ∧
    ((autodiff c2mod).1 = .error "Unsupported binary operation: 25" ∧
      (autodiff c2mod).2.map GenFunc.name = ["a_fwd", "a_bwd"]) := by
  refine ⟨?_, rfl, rfl⟩
  intro mod e h
  simp [autodiff, h]

/-! ### The generator's backward-locals vector only grows (towards C1) -/

theorem bwdMono_pure {α : Type} (a : α) : BwdMono (pure a : AdM α) := by
  intro s r s2 h
  cases h
  exact List.prefix_refl _

theorem bwdMono_throw {α : Type} (e : String) : BwdMono (throw e : AdM α) := by
  intro s r s2 h
  cases h

theorem bwdMono_bind {α β : Type} {m : AdM α} {g : α → AdM β}
    (hm : BwdMono m) (hg : ∀ a, BwdMono (g a)) : BwdMono (m >>= g) := by
  intro s r s2 h
  have h2 : Except.bind (m s) (fun p => g p.1 p.2) = .ok (r, s2) := h
  cases hms : m s with
  | error e => rw [hms] at h2; cases h2
  | ok p =>
    rw [hms] at h2
    simp only [except_bind_ok] at h2
    exact (hm s p.1 p.2 hms).trans (hg p.1 p.2 r s2 h2)

theorem bwdMono_get : BwdMono (get : AdM AdState) := by
  intro s r s2 h
  cases h
  exact List.prefix_refl _

theorem bwdMono_makeFwd (t : ValType) : BwdMono (makeFwd t) := by
  intro s r s2 h
  cases h
  exact List.prefix_refl _

theorem bwdMono_makeBwd (t : ValType) : BwdMono (makeBwd t) := by
  intro s r s2 h
  cases h
  exact ⟨[t], rfl⟩

theorem bwdMono_pushBwd (es : List GenExpr) : BwdMono (pushBwd es) := by
  intro s r s2 h
  cases h
  exact List.prefix_refl _

theorem bwdMono_fwdGetL (i : Nat) : BwdMono (fwdGetL i) := by
  intro s r s2 h
  cases h
  exact List.prefix_refl _

theorem bwdMono_getL (i : Nat) : BwdMono (getL i) := by
  intro s r s2 h
  cases h
  exact List.prefix_refl _

theorem bwdMono_monadLift {α : Type} (m : Except String α) :
    BwdMono (monadLift m : AdM α) := by
  intro s r s2 h
  rw [run_monadLift] at h
  cases m with
  | error e => cases h
  | ok a =>
    simp only [except_bind_ok] at h
    cases h
    exact List.prefix_refl _

theorem bwdMono_modifyVars (g : AdState → List VarSlot) :
    BwdMono (modify (fun s => { s with vars := g s }) : AdM PUnit) := by
  intro s r s2 h
  cases h
  exact List.prefix_refl _

theorem bwdMono_untape (ctx : AdContext) (ref : Nat) : BwdMono (untape ctx ref) := by
  intro s r s2 h
  unfold untape at h
  cases hl : ctx.tape.loads.get ref with
  | none => rw [hl] at h; cases h
  | some load =>
    rw [hl] at h
    cases load with
    | const v => cases h; exact List.prefix_refl _
    | field i => cases h; exact List.prefix_refl _

theorem bwdMono_bwdGrad (ctx : AdContext) (e : Expr) : BwdMono (bwdGrad ctx e) := by
  unfold bwdGrad
  apply bwdMono_bind (bwdMono_monadLift _)
  intro g
  cases hl : ctx.tape.gradLoads.get e.label with
  | none => exact bwdMono_makeBwd g
  | some load =>
    cases load with
    | const v =>
      dsimp only
      by_cases hv : v = 0
      · rw [if_neg (by simp [hv])]
        exact bwdMono_makeBwd g
      · rw [if_pos hv]
        exact bwdMono_throw _
    | field i => exact bwdMono_pure _

theorem bwdMono_genWrap (ctx : AdContext) (e : Expr) (r : GenResult) :
    BwdMono (genWrap ctx e r) := by
  unfold genWrap
  dsimp only
  cases hg : ctx.tape.grads.get e.label with
  | none =>
    cases hf : ctx.tape.stores.get e.label with
    | none => exact bwdMono_pure _
    | some f => exact bwdMono_bind bwdMono_get (fun s => bwdMono_pure _)
  | some gf =>
    cases hf : ctx.tape.stores.get e.label with
    | none =>
      apply bwdMono_bind (bwdMono_makeFwd _)
      intro index
      exact bwdMono_bind (bwdMono_fwdGetL _) (fun _ =>
        bwdMono_bind (bwdMono_fwdGetL _) (fun _ => bwdMono_pure _))
    | some f =>
      apply bwdMono_bind (bwdMono_pure _)
      intro index
      exact bwdMono_bind (bwdMono_fwdGetL _) (fun _ =>
        bwdMono_bind (bwdMono_fwdGetL _) (fun _ => bwdMono_pure _))

theorem bwdMono_throw_bind {α β : Type} (e : String) (g : α → AdM β) :
    BwdMono ((throw e : AdM α) >>= g) := by
  intro s r s2 h
  cases h

theorem bwdMono_ite {α : Type} (c : Prop) [Decidable c] {m1 m2 : AdM α}
    (h1 : BwdMono m1) (h2 : BwdMono m2) : BwdMono (if c then m1 else m2) := by
  by_cases hc : c
  · rwa [if_pos hc]
  · rwa [if_neg hc]

theorem sizeOf_expr_pos (e : Expr) : 0 < sizeOf e := by
  cases e <;> simp_arith

theorem sizeOf_exprList_pos (es : List Expr) : 0 < sizeOf es := by
  cases es <;> simp_arith

/-- Every generator computation only appends to `bwdVars` (mutual strong
induction over the expression tree for `genExpr`, `genBlockChildren`, and
`genOperands`). -/
theorem genExpr_mono_aux (ctx : AdContext) : ∀ (n : Nat),
    (∀ e : Expr, sizeOf e ≤ n → BwdMono (genExpr ctx e)) ∧
    (∀ es : List Expr, sizeOf es ≤ n → BwdMono (genBlockChildren ctx es)) ∧
    (∀ es : List Expr, sizeOf es ≤ n → BwdMono (genOperands ctx es)) := by
  intro n
  induction n with
  | zero =>
    exact ⟨fun e he => absurd he (by have := sizeOf_expr_pos e; omega),
           fun es hes => absurd hes (by have := sizeOf_exprList_pos es; omega),
           fun es hes => absurd hes (by have := sizeOf_exprList_pos es; omega)⟩
  | succ n ih =>
    obtain ⟨ihe, ihb, iho⟩ := ih
    refine ⟨?_, ?_, ?_⟩
    · intro e he
      cases e with
      | block l name children type =>
        cases children with
        | nil =>
          simp only [genExpr]
          exact bwdMono_bind (bwdMono_pure _) (fun r => bwdMono_genWrap ctx _ r)
        | cons c cs =>
          simp only [genExpr]
          refine bwdMono_bind ?_ (fun r => bwdMono_genWrap ctx _ r)
          exact bwdMono_bind (ihb (c :: cs) (by simp at he ⊢; omega))
            (fun p => bwdMono_pure _)
      | call l target operands isReturn type =>
        simp only [genExpr]
        refine bwdMono_bind ?_ (fun r => bwdMono_genWrap ctx _ r)
        dsimp only
        apply bwdMono_bind (iho operands (by simp at he ⊢; omega))
        intro rs
        cases lookupStr ctx.names target with
        | none => exact bwdMono_throw_bind _ _
        | some nm =>
          apply bwdMono_bind (bwdMono_pure _); intro nm2
          apply bwdMono_bind (bwdMono_monadLift _); intro paramsGrad
          apply bwdMono_bind (bwdMono_monadLift _); intro resultsGrad
          cases ctx.tape.calls.get l with
          | none => exact bwdMono_throw_bind _ _
          | some i =>
            apply bwdMono_bind (bwdMono_pure _); intro field
            apply bwdMono_bind (bwdMono_makeFwd _); intro fwdGrad
            apply bwdMono_bind bwdMono_get; intro sv
            apply bwdMono_bind (bwdMono_makeFwd _); intro tup
            apply bwdMono_bind (bwdMono_makeBwd _); intro gradIn
            apply bwdMono_bind (bwdMono_makeBwd _); intro gradOut
            apply bwdMono_bind (bwdMono_getL _); intro gradInGet
            apply bwdMono_bind (bwdMono_pushBwd _); intro u1
            apply bwdMono_bind bwdMono_get; intro sv2
            apply bwdMono_bind (bwdMono_getL _); intro gradOutGet
            apply bwdMono_bind (bwdMono_getL _); intro tapeGet
            apply bwdMono_bind (bwdMono_pushBwd _); intro u2
            apply bwdMono_bind (bwdMono_fwdGetL _); intro tupGet
            exact bwdMono_pure _
      | localGet l index type =>
        simp only [genExpr]
        refine bwdMono_bind ?_ (fun r => bwdMono_genWrap ctx _ r)
        dsimp only
        apply bwdMono_bind bwdMono_get
        intro s
        cases s.vars[index]? with
        | none => exact bwdMono_throw _
        | some slot => exact bwdMono_pure _
      | localSet l index isTee value type =>
        simp only [genExpr]
        refine bwdMono_bind ?_ (fun r => bwdMono_genWrap ctx _ r)
        dsimp only
        apply bwdMono_bind (ihe value (by simp at he; omega))
        intro v
        apply bwdMono_bind bwdMono_get
        intro s
        cases s.vars[index]? with
        | none => exact bwdMono_throw _
        | some slot =>
          apply bwdMono_bind (bwdMono_makeBwd _); intro bwd
          apply bwdMono_bind (bwdMono_modifyVars _); intro u1
          apply bwdMono_ite
          · exact bwdMono_bind bwdMono_get (fun s3 => bwdMono_pure _)
          · apply bwdMono_bind (bwdMono_getL _); intro bwdGet
            apply bwdMono_bind (bwdMono_pushBwd _); intro u2
            apply bwdMono_bind (bwdMono_fwdGetL _); intro gradGet
            apply bwdMono_bind ?_ ?_
            · apply bwdMono_ite
              · exact bwdMono_bind (bwdMono_fwdGetL _) (fun f => bwdMono_pure _)
              · exact bwdMono_pure _
            · intro children
              exact bwdMono_pure _
      | const l value type =>
        simp only [genExpr]
        refine bwdMono_bind ?_ (fun r => bwdMono_genWrap ctx _ r)
        dsimp only
        cases value with
        | other kind => exact bwdMono_throw _
        | num v =>
          cases type <;>
            first
            | exact bwdMono_bind (bwdMono_bwdGrad _ _) (fun b => bwdMono_pure _)
            | exact bwdMono_throw _
      | binary l op left right =>
        simp only [genExpr]
        refine bwdMono_bind ?_ (fun r => bwdMono_genWrap ctx _ r)
        dsimp only
        apply bwdMono_bind (ihe left (by simp at he; omega)); intro lr
        apply bwdMono_bind (ihe right (by simp at he; omega)); intro rr
        apply bwdMono_bind (bwdMono_bwdGrad _ _); intro dz
        cases op with
        | addF64 =>
          apply bwdMono_bind (bwdMono_getL _); intro a
          apply bwdMono_bind (bwdMono_getL _); intro b
          apply bwdMono_bind (bwdMono_getL _); intro c
          exact bwdMono_bind (bwdMono_pushBwd _) (fun u => bwdMono_pure _)
        | subF64 =>
          apply bwdMono_bind (bwdMono_getL _); intro a
          apply bwdMono_bind (bwdMono_getL _); intro b
          apply bwdMono_bind (bwdMono_getL _); intro c
          exact bwdMono_bind (bwdMono_pushBwd _) (fun u => bwdMono_pure _)
        | mulF64 =>
          apply bwdMono_bind (bwdMono_getL _); intro a
          apply bwdMono_bind (bwdMono_getL _); intro b
          apply bwdMono_bind (bwdMono_getL _); intro c
          apply bwdMono_bind (bwdMono_untape _ _); intro y
          apply bwdMono_bind (bwdMono_untape _ _); intro x
          exact bwdMono_bind (bwdMono_pushBwd _) (fun u => bwdMono_pure _)
        | divF64 =>
          apply bwdMono_bind (bwdMono_makeBwd _); intro dx1
          apply bwdMono_bind (bwdMono_getL _); intro a
          apply bwdMono_bind (bwdMono_getL _); intro b
          apply bwdMono_bind (bwdMono_getL _); intro c
          apply bwdMono_bind (bwdMono_getL _); intro d
          apply bwdMono_bind (bwdMono_untape _ _); intro y
          apply bwdMono_bind (bwdMono_untape _ _); intro z
          exact bwdMono_bind (bwdMono_pushBwd _) (fun u => bwdMono_pure _)
        | other id t => exact bwdMono_throw _
      | structNew l operands type =>
        simp only [genExpr]
        refine bwdMono_bind ?_ (fun r => bwdMono_genWrap ctx _ r)
        dsimp only
        apply bwdMono_ite
        · exact bwdMono_throw_bind _ _
        · apply bwdMono_bind (bwdMono_pure _); intro u0
          apply bwdMono_bind (bwdMono_monadLift _); intro gradType
          apply bwdMono_bind (bwdMono_makeFwd _); intro grad
          exact bwdMono_bind (bwdMono_bwdGrad _ _) (fun b => bwdMono_pure _)
      | arrayNew l init size type =>
        simp only [genExpr]
        refine bwdMono_bind ?_ (fun r => bwdMono_genWrap ctx _ r)
        dsimp only
        cases init with
        | some e0 => exact bwdMono_throw _
        | none =>
          apply bwdMono_bind (ihe size (by simp at he; omega)); intro sz
          apply bwdMono_bind (bwdMono_monadLift _); intro gradType
          apply bwdMono_bind (bwdMono_makeFwd _); intro grad
          apply bwdMono_bind (bwdMono_bwdGrad _ _); intro b
          apply bwdMono_ite
          · exact bwdMono_pure _
          · exact bwdMono_bind (bwdMono_makeFwd _) (fun v => bwdMono_pure _)
      | arrayGet l arr index type isSigned =>
        simp only [genExpr]
        refine bwdMono_bind ?_ (fun r => bwdMono_genWrap ctx _ r)
        dsimp only
        apply bwdMono_bind (ihe arr (by simp at he; omega)); intro a
        apply bwdMono_bind (ihe index (by simp at he; omega)); intro i
        apply bwdMono_bind (bwdMono_monadLift _); intro gradType
        apply bwdMono_bind (bwdMono_bwdGrad _ _); intro b
        apply bwdMono_ite
        · apply bwdMono_bind (bwdMono_getL _); intro aBwd
          apply bwdMono_bind (bwdMono_untape _ _); intro iT
          apply bwdMono_bind (bwdMono_getL _); intro bwdGet
          exact bwdMono_bind (bwdMono_pushBwd _) (fun u => bwdMono_pure _)
        · apply bwdMono_ite
          · exact bwdMono_pure _
          · apply bwdMono_bind (bwdMono_makeFwd _); intro indexVar
            apply bwdMono_bind (bwdMono_makeFwd _); intro grad
            exact bwdMono_bind (bwdMono_fwdGetL _) (fun g => bwdMono_pure _)
      | arraySet l arr index value =>
        simp only [genExpr]
        refine bwdMono_bind ?_ (fun r => bwdMono_genWrap ctx _ r)
        dsimp only
        apply bwdMono_bind (ihe arr (by simp at he; omega)); intro a
        apply bwdMono_bind (ihe index (by simp at he; omega)); intro i
        apply bwdMono_bind (ihe value (by simp at he; omega)); intro v
        apply bwdMono_bind (bwdMono_monadLift _); intro gradType
        apply bwdMono_bind (bwdMono_bwdGrad _ _); intro b
        apply bwdMono_ite
        · apply bwdMono_bind (bwdMono_getL _); intro aBwd
          apply bwdMono_bind (bwdMono_untape _ _); intro iT
          apply bwdMono_bind (bwdMono_getL _); intro vBwd
          exact bwdMono_bind (bwdMono_pushBwd _) (fun u => bwdMono_pure _)
        · apply bwdMono_ite
          · exact bwdMono_pure _
          · cases ctx.tape.sets.get l with
            | none => exact bwdMono_throw_bind _ _
            | some f =>
              apply bwdMono_bind (bwdMono_pure _); intro field
              apply bwdMono_bind (bwdMono_getL _); intro aBwd
              apply bwdMono_bind (bwdMono_untape _ _); intro iT
              apply bwdMono_bind (bwdMono_getL _); intro fieldGet
              apply bwdMono_bind (bwdMono_pushBwd _); intro u
              apply bwdMono_bind (bwdMono_makeFwd _); intro indexVar
              apply bwdMono_bind (bwdMono_fwdGetL _); intro g1
              apply bwdMono_bind (bwdMono_fwdGetL _); intro g2
              exact bwdMono_bind (bwdMono_fwdGetL _) (fun g3 => bwdMono_pure _)
      | arrayLen l arr =>
        simp only [genExpr]
        refine bwdMono_bind ?_ (fun r => bwdMono_genWrap ctx _ r)
        dsimp only
        exact bwdMono_bind (ihe arr (by simp at he; omega)) (fun a => bwdMono_pure _)
      | unsupported l id =>
        simp only [genExpr]
        refine bwdMono_bind ?_ (fun r => bwdMono_genWrap ctx _ r)
        exact bwdMono_throw _
    · intro es hes
      cases es with
      | nil => simp only [genBlockChildren]; exact bwdMono_throw _
      | cons c cs =>
        cases cs with
        | nil =>
          simp only [genBlockChildren]
          exact bwdMono_bind (ihe c (by simp at hes; omega)) (fun r => bwdMono_pure _)
        | cons c2 cs2 =>
          simp only [genBlockChildren]
          apply bwdMono_bind (ihe c (by simp at hes; omega))
          intro r
          apply bwdMono_bind (ihb (c2 :: cs2) (by simp at hes ⊢; omega))
          intro p
          exact bwdMono_pure _
    · intro es hes
      cases es with
      | nil => simp only [genOperands]; exact bwdMono_pure _
      | cons c cs =>
        simp only [genOperands]
        apply bwdMono_bind (ihe c (by simp at hes; omega))
        intro r
        apply bwdMono_bind (iho cs (by simp at hes ⊢; omega))
        intro rs
        exact bwdMono_pure _

/-- `genExpr` only appends to `bwdVars`. -/
theorem genExpr_bwdMono (ctx : AdContext) (e : Expr) : BwdMono (genExpr ctx e) :=
  (genExpr_mono_aux ctx (sizeOf e)).1 e (Nat.le_refl _)

/-! ### C1: signatures of the generated forward/backward pair -/

theorem except_throw {α ε : Type} (e : ε) : (throw e : Except ε α) = .error e := rfl

theorem getD_append_left {α : Type} (l1 l2 : List α) (n : Nat) (h : n < l1.length)
    (d : α) : (l1 ++ l2).getD n d = l1.getD n d := by
  simp only [List.getD_eq_getElem?_getD]
  rw [List.getElem?_append]
  simp [h]

theorem getD_append_last {α : Type} (l1 : List α) (t d : α) :
    (l1 ++ [t]).getD l1.length d = t := by
  simp only [List.getD_eq_getElem?_getD]
  rw [List.getElem?_append_right (Nat.le_refl _)]
  simp

theorem getD_of_pref {α : Type} {l1 l2 : List α} (h : l1 <+: l2) (n : Nat)
    (hn : n < l1.length) (d : α) : l2.getD n d = l1.getD n d := by
  obtain ⟨t, rfl⟩ := h
  exact getD_append_left l1 t n hn d

theorem adLocalStep_bwd_pref (acc : List ValType × List ValType × List VarSlot)
    (t : ValType) (out : List ValType × List ValType × List VarSlot)
    (h : adLocalStep acc t = .ok out) : acc.2.1 <+: out.2.1 := by
  obtain ⟨a, b, c⟩ := acc
  unfold adLocalStep at h
  cases htg : typeG t with
  | error e => rw [htg] at h; simp at h
  | ok g =>
    rw [htg] at h
    simp only [ok_bind, pure_except, Except.ok.injEq] at h
    subst h
    exact ⟨[g], rfl⟩

theorem foldlM_adLocalStep_pref (ts : List ValType) :
    ∀ (acc out : List ValType × List ValType × List VarSlot),
    ts.foldlM adLocalStep acc = .ok out → acc.2.1 <+: out.2.1 := by
  induction ts with
  | nil =>
    intro acc out h
    simp only [List.foldlM_nil, pure_except, Except.ok.injEq] at h
    subst h
    exact List.prefix_refl _
  | cons t ts ih =>
    intro acc out h
    rw [List.foldlM_cons] at h
    cases hstep : adLocalStep acc t with
    | error e => rw [hstep] at h; simp at h
    | ok acc2 =>
      rw [hstep] at h
      simp only [ok_bind] at h
      exact (adLocalStep_bwd_pref acc t acc2 hstep).trans (ih acc2 out h)

theorem foldl_adFieldStep_pref (fs : List (ValType × Bool)) :
    ∀ acc : List ValType × List ValType × List Nat × List Nat,
    acc.2.1 <+: (fs.foldl adFieldStep acc).2.1 := by
  induction fs with
  | nil => intro acc; exact List.prefix_refl _
  | cons f fs ih =>
    intro acc
    obtain ⟨a, b, c, d⟩ := acc
    rw [List.foldl_cons]
    exact List.IsPrefix.trans (List.prefix_append b [f.1]) (ih (adFieldStep (a, b, c, d) f))

/-- What the `Autodiff` constructor guarantees about the parts of the context
and initial state that determine the generated signatures. -/
theorem mkAutodiff_spec (names : List (String × NamePair)) (f : Func) (tape : Tape)
    (ctx : AdContext) (s0 : AdState)
    (h : mkAutodiff names f tape = .ok (ctx, s0)) :
    tupleG (expandType f.params) = .ok ctx.paramsGrad ∧
    tupleG (expandType f.results) = .ok ctx.resultsGrad ∧
    ctx.params = expandType f.params ∧
    ctx.results = expandType f.results ∧
    ctx.fwdParams = expandType f.params ++ ctx.paramsGrad ∧
    ctx.bwdParams = ctx.paramsGrad ++ ctx.resultsGrad ++
      [ValType.ref false (.struct tape.structFields)] ∧
    ctx.bwdParams <+: s0.bwdVars := by
  simp only [mkAutodiff] at h
  cases h1 : tupleG (expandType f.params) with
  | error e => rw [h1] at h; simp at h
  | ok pg =>
  rw [h1] at h
  simp only [ok_bind] at h
  cases h2 : tupleG (expandType f.results) with
  | error e => rw [h2] at h; simp at h
  | ok rg =>
  rw [h2] at h
  simp only [ok_bind] at h
  cases h3 : (expandType f.params).foldlM (adParamStep (expandType f.params)) (0, []) with
  | error e => rw [h3] at h; simp at h
  | ok ps =>
  rw [h3] at h
  simp only [ok_bind, pure_except] at h
  cases h4 : f.vars.foldlM adLocalStep
      (expandType f.params ++ pg,
       pg ++ rg ++ [ValType.ref false (.struct tape.structFields)], []) with
  | error e => rw [h4] at h; simp at h
  | ok trip =>
  rw [h4] at h
  simp only [ok_bind, pure_except, Except.ok.injEq, Prod.mk.injEq] at h
  obtain ⟨hctx, hs0⟩ := h
  subst hctx
  subst hs0
  refine ⟨rfl, rfl, rfl, rfl, rfl, rfl, ?_⟩
  show pg ++ rg ++ [ValType.ref false (.struct tape.structFields)] <+:
    (tape.structFields.foldl adFieldStep (trip.1, trip.2.1, [], [])).2.1 ++ [unit]
  have p1 : pg ++ rg ++ [ValType.ref false (.struct tape.structFields)] <+: trip.2.1 :=
    foldlM_adLocalStep_pref f.vars _ trip h4
  have p2 := foldl_adFieldStep_pref tape.structFields (trip.1, trip.2.1, [], [])
  exact (p1.trans p2).trans (List.prefix_append _ _)

/-- Claim C1: for every function the transformation succeeds on, the forward
pass has parameter list `params ++ G(params)` and returns the tuple
`(results, G(results), ref to the tape struct)`, and the backward pass has
parameter list `G(params) ++ G(results) ++ [ref to the tape struct]` and
returns `G(params)` as a tuple. -/
theorem claim1_signatures (names : List (String × NamePair)) (f : Func)
    (tape : Tape) (fwdF bwdF : GenFunc) (pg rg : List ValType)
    (hpg : tupleG (expandType f.params) = .ok pg)
    (hrg : tupleG (expandType f.results) = .ok rg)
    (h : genPair names f tape = .ok (fwdF, bwdF)) :
    fwdF.params = createType (expandType f.params ++ pg) ∧
    fwdF.results = createType (expandType f.results ++ rg ++
      [ValType.ref false (.struct tape.structFields)]) ∧
    bwdF.params = createType (pg ++ rg ++
      [ValType.ref false (.struct tape.structFields)]) ∧
    bwdF.results = createType pg := by
  unfold genPair at h
  cases hl : lookupStr names f.name with
  | none => rw [hl] at h; simp [except_throw] at h
  | some nm =>
  rw [hl] at h
  simp only [ok_bind, pure_except] at h
  cases hmk : mkAutodiff names f tape with
  | error e => rw [hmk] at h; simp at h
  | ok cs =>
  rw [hmk] at h
  simp only [ok_bind] at h
  obtain ⟨hg1, hg2, _, _, hfp, hbp, hpre0⟩ := mkAutodiff_spec names f tape cs.1 cs.2 hmk
  cases hge : (genExpr cs.1 f.body).run cs.2 with
  | error e => rw [hge] at h; simp at h
  | ok rs1 =>
  rw [hge] at h
  simp only [ok_bind] at h
  cases hmf : (makeFwd f.results).run rs1.2 with
  | error e => rw [hmf] at h; simp at h
  | ok os2 =>
  rw [hmf] at h
  simp only [ok_bind, pure_except, Except.ok.injEq, Prod.mk.injEq] at h
  obtain ⟨hf, hb⟩ := h
  have hpgq : pg = cs.1.paramsGrad := by
    rw [hpg] at hg1; exact (Except.ok.inj hg1)
  have hrgq : rg = cs.1.resultsGrad := by
    rw [hrg] at hg2; exact (Except.ok.inj hg2)
  have hpre1 : cs.2.bwdVars <+: rs1.2.bwdVars :=
    genExpr_bwdMono cs.1 f.body cs.2 rs1.1 rs1.2 hge
  have hpre2 : rs1.2.bwdVars <+: os2.2.bwdVars :=
    bwdMono_makeFwd f.results rs1.2 os2.1 os2.2 hmf
  have hlen : cs.1.bwdParams.length - 1 = (cs.1.paramsGrad ++ cs.1.resultsGrad).length := by
    rw [hbp]; simp
  have hlt : cs.1.bwdParams.length - 1 < cs.1.bwdParams.length := by
    rw [hbp]; simp
  have htape : os2.2.bwdVars.getD (cs.1.bwdParams.length - 1) ValType.auto =
      ValType.ref false (.struct tape.structFields) := by
    rw [getD_of_pref (hpre0.trans (hpre1.trans hpre2)) _ hlt]
    rw [hlen, hbp]
    exact getD_append_last _ _ _
  subst hf
  subst hb
  refine ⟨?_, ?_, ?_, ?_⟩
  · show createType cs.1.fwdParams = _
    rw [hfp, hpgq]
  · show createType (cs.1.results ++ cs.1.resultsGrad ++
      [os2.2.bwdVars.getD (cs.1.bwdParams.length - 1) ValType.auto]) = _
    rw [htape, hrgq]
    obtain ⟨_, _, _, hres, _, _, _⟩ := mkAutodiff_spec names f tape cs.1 cs.2 hmk
    rw [hres]
  · show createType cs.1.bwdParams = _
    rw [hbp, hpgq, hrgq]
  · show createType cs.1.paramsGrad = _
    rw [hpgq]

theorem claim1_signatures_witness :
    genPair (makeNames ["a"]) funcA tapeA = .ok (fwdA, bwdA) ∧
    fwdA.params = createType (expandType funcA.params ++ [ValType.f64]) ∧
    fwdA.results = createType (expandType funcA.results ++ [ValType.f64] ++
      [ValType.ref false (.struct tapeA.structFields)]) ∧
    bwdA.params = createType ([ValType.f64] ++ [ValType.f64] ++
      [ValType.ref false (.struct tapeA.structFields)]) ∧
    bwdA.results = createType [ValType.f64] :=
  ⟨rfl, claim1_signatures (makeNames ["a"]) funcA tapeA fwdA bwdA
    [ValType.f64] [ValType.f64] rfl rfl rfl⟩

theorem claim2_error_abort_witness :
    makeTapes { functions := [badPlanFunc], exports := [] } =
      .error "Unsupported expression ID: 99" ∧
    autodiff { functions := [badPlanFunc], exports := [] } =
      (.error "Unsupported expression ID: 99", []) :=
  ⟨rfl, claim2_error_abort.1 { functions := [badPlanFunc], exports := [] }
    "Unsupported expression ID: 99" rfl⟩

/-! ### C9: the planner's tape field indices partition `[0, fields)` -/

theorem jsmap_get_none_of_not_mem {α : Type} (m : JsMap α) (k : Nat)
    (h : k ∉ m.keys) : m.get k = none := by
  unfold JsMap.get
  rw [Option.map_eq_none']
  rw [List.find?_eq_none]
  intro p hp
  simp only [decide_eq_true_eq]
  intro hk
  exact h (List.mem_map.mpr ⟨p, hp, hk⟩)

theorem jsmap_not_mem_of_get_none {α : Type} (m : JsMap α) (k : Nat)
    (h : m.get k = none) : k ∉ m.keys := by
  intro hmem
  obtain ⟨p, hp, hpk⟩ := List.mem_map.mp hmem
  unfold JsMap.get at h
  rw [Option.map_eq_none'] at h
  rw [List.find?_eq_none] at h
  exact absurd (by simpa using hpk) (h p hp)

theorem jsmap_set_append {α : Type} (m : JsMap α) (k : Nat) (v : α)
    (h : m.get k = none) : m.set k v = m ++ [(k, v)] := by
  unfold JsMap.set
  unfold JsMap.get at h
  rw [Option.map_eq_none'] at h
  rw [h]
  simp

theorem jsmap_values_append {α : Type} (m : JsMap α) (p : Nat × α) :
    JsMap.values (m ++ [p]) = JsMap.values m ++ [p.2] := by
  simp [JsMap.values]

theorem jsmap_keys_append {α : Type} (m : JsMap α) (p : Nat × α) :
    JsMap.keys (m ++ [p]) = JsMap.keys m ++ [p.1] := by
  simp [JsMap.keys]

theorem perm_snoc_middle {α : Type} (x : α) (A B : List α) :
    ((A ++ [x]) ++ B).Perm ((A ++ B) ++ [x]) := by
  have h1 : (A ++ [x]) ++ B = A ++ (x :: B) := by simp
  rw [h1]
  exact List.Perm.trans List.perm_middle (List.perm_append_singleton _ _).symm

theorem perm_alloc1 {S G T C R : List Nat} (x : Nat)
    (h : (((S ++ G) ++ T) ++ C).Perm R) :
    ((((S ++ [x]) ++ G) ++ T) ++ C).Perm (R ++ [x]) := by
  refine List.Perm.trans
    (((perm_snoc_middle x S G).append_right T).append_right C) ?_
  refine List.Perm.trans ((perm_snoc_middle x (S ++ G) T).append_right C) ?_
  refine List.Perm.trans (perm_snoc_middle x ((S ++ G) ++ T) C) ?_
  exact h.append_right [x]

theorem perm_alloc2 {S G T C R : List Nat} (x : Nat)
    (h : (((S ++ G) ++ T) ++ C).Perm R) :
    (((S ++ (G ++ [x])) ++ T) ++ C).Perm (R ++ [x]) := by
  rw [← List.append_assoc]
  refine List.Perm.trans ((perm_snoc_middle x (S ++ G) T).append_right C) ?_
  refine List.Perm.trans (perm_snoc_middle x ((S ++ G) ++ T) C) ?_
  exact h.append_right [x]

theorem perm_alloc3 {S G T C R : List Nat} (x : Nat)
    (h : (((S ++ G) ++ T) ++ C).Perm R) :
    (((S ++ G) ++ (T ++ [x])) ++ C).Perm (R ++ [x]) := by
  rw [← List.append_assoc]
  refine List.Perm.trans (perm_snoc_middle x ((S ++ G) ++ T) C) ?_
  exact h.append_right [x]

theorem perm_alloc4 {S G T C R : List Nat} (x : Nat)
    (h : (((S ++ G) ++ T) ++ C).Perm R) :
    (((S ++ G) ++ T) ++ (C ++ [x])).Perm (R ++ [x]) := by
  rw [← List.append_assoc]
  exact h.append_right [x]

theorem nodup_cons_snoc {α : Type} (a : α) (L : List α) (h : (a :: L).Nodup) :
    (L ++ [a]).Nodup :=
  ((List.perm_append_singleton a L).nodup_iff).mpr h

theorem pres_pure {α : Type} (a : α) : Pres (pure a : TaperM α) [] := by
  intro s r s2 h hinv hnd hdis
  cases h
  exact ⟨hinv, List.subset_append_left _ _⟩

theorem pres_throw {α : Type} (e : String) : Pres (throw e : TaperM α) [] := by
  intro s r s2 h hinv hnd hdis
  cases h

theorem pres_monadLift {α : Type} (m : Except String α) :
    Pres (monadLift m : TaperM α) [] := by
  intro s r s2 h hinv hnd hdis
  cases hm : m with
  | error e => rw [run_monadLift, hm] at h; cases h
  | ok a =>
    rw [run_monadLift, hm] at h
    simp only [except_bind_ok] at h
    cases h
    exact ⟨hinv, List.subset_append_left _ _⟩

theorem pres_sub {α : Type} {m : TaperM α} {L L2 : List Nat} (h : Pres m L)
    (hsub : L ⊆ L2) (hnd : L2.Nodup → L.Nodup) : Pres m L2 := by
  intro s r s2 hm hinv hnd2 hdis
  obtain ⟨h1, h2⟩ := h s r s2 hm hinv (hnd hnd2) (fun x hx => hdis x (hsub hx))
  refine ⟨h1, fun x hx => ?_⟩
  rcases List.mem_append.mp (h2 hx) with h3 | h3
  · exact List.mem_append.mpr (Or.inl h3)
  · exact List.mem_append.mpr (Or.inr (hsub h3))

theorem pres_bind {α β : Type} {m : TaperM α} {k : α → TaperM β} {L1 L2 : List Nat}
    (hm : Pres m L1) (hk : ∀ a, Pres (k a) L2) :
    Pres (m >>= k) (L1 ++ L2) := by
  intro s r s2 h hinv hnd hdis
  have h2 : Except.bind (m s) (fun p => k p.1 p.2) = .ok (r, s2) := h
  obtain ⟨hnd1, hnd2, hdisj⟩ := List.nodup_append.mp hnd
  cases hms : m s with
  | error e => rw [hms] at h2; cases h2
  | ok p =>
    rw [hms] at h2
    simp only [except_bind_ok] at h2
    obtain ⟨hi1, hs1⟩ := hm s p.1 p.2 hms hinv hnd1
      (fun x hx => hdis x (List.mem_append.mpr (Or.inl hx)))
    have hdis2 : ∀ x ∈ L2, x ∉ skeys p.2 := by
      intro x hx hmem
      rcases List.mem_append.mp (hs1 hmem) with h4 | h4
      · exact hdis x (List.mem_append.mpr (Or.inr hx)) h4
      · exact hdisj h4 hx
    obtain ⟨hi2, hs2⟩ := hk p.1 p.2 r s2 h2 hi1 hnd2 hdis2
    refine ⟨hi2, fun x hx => ?_⟩
    rcases List.mem_append.mp (hs2 hx) with h3 | h3
    · rcases List.mem_append.mp (hs1 h3) with h4 | h4
      · exact List.mem_append.mpr (Or.inl h4)
      · exact List.mem_append.mpr (Or.inr (List.mem_append.mpr (Or.inl h4)))
    · exact List.mem_append.mpr (Or.inr (List.mem_append.mpr (Or.inr h3)))

theorem pres_ite {α : Type} (c : Prop) [Decidable c] {m1 m2 : TaperM α}
    {L : List Nat} (h1 : Pres m1 L) (h2 : Pres m2 L) :
    Pres (if c then m1 else m2) L := by
  by_cases hc : c
  · rwa [if_pos hc]
  · rwa [if_neg hc]

theorem pres_mark (ref : Nat) (v : Value) : Pres (mark ref v) [] := by
  intro s r s2 h hinv hnd hdis
  cases v with
  | param => cases h
  | void => cases h
  | const c =>
    have h2 : Except.ok (Value.const c,
        { s with loads := s.loads.set ref (.const c) }) = .ok (r, s2) := h
    cases h2
    exact ⟨hinv, List.subset_append_left _ _⟩
  | expression rr =>
    cases hg : s.stores.get rr with
    | some i =>
      have heq : mark ref (.expression rr) s = .ok (.expression rr,
          { s with loads := s.loads.set ref (.field i) }) := by
        simp [mark, bind, pure, hg]
      rw [heq] at h
      cases h
      exact ⟨hinv, List.subset_append_left _ _⟩
    | none =>
      have heq : mark ref (.expression rr) s = .ok (.expression rr,
          { s with fields := s.fields + 1, stores := s.stores.set rr s.fields,
                   loads := s.loads.set ref (.field s.fields) }) := by
        simp [mark, bind, pure, hg]
      rw [heq] at h
      cases h
      refine ⟨?_, List.subset_append_left _ _⟩
      unfold planINV planIndices at hinv ⊢
      dsimp only
      rw [jsmap_set_append s.stores rr s.fields hg, jsmap_values_append]
      rw [List.range_succ]
      exact perm_alloc1 s.fields hinv

theorem pres_markGrad (ref : Nat) : Pres (markGrad ref) [] := by
  intro s r s2 h hinv hnd hdis
  cases hg : s.grads.get ref with
  | some i =>
    have heq : markGrad ref s = .ok ((),
        { s with gradLoads := s.gradLoads.set ref (.field i) }) := by
      simp [markGrad, bind, pure, hg]
    rw [heq] at h
    cases h
    exact ⟨hinv, List.subset_append_left _ _⟩
  | none =>
    have heq : markGrad ref s = .ok ((),
        { s with fields := s.fields + 1, grads := s.grads.set ref s.fields,
                 gradLoads := s.gradLoads.set ref (.field s.fields) }) := by
      simp [markGrad, bind, pure, hg]
    rw [heq] at h
    cases h
    refine ⟨?_, List.subset_append_left _ _⟩
    unfold planINV planIndices at hinv ⊢
    dsimp only
    rw [jsmap_set_append s.grads ref s.fields hg, jsmap_values_append]
    rw [List.range_succ]
    exact perm_alloc2 s.fields hinv

theorem pres_callModify (ref : Nat) :
    Pres (modify (fun s => { s with calls := s.calls.set ref s.fields,
                                    fields := s.fields + 1 }) : TaperM PUnit)
      [ref] := by
  intro s r s2 h hinv hnd hdis
  rw [run_modify] at h
  cases h
  have hnc : ref ∉ s.calls.keys := by
    intro hmem
    exact hdis ref (by simp) (List.mem_append.mpr (Or.inr hmem))
  have hget : s.calls.get ref = none := jsmap_get_none_of_not_mem _ _ hnc
  refine ⟨?_, ?_⟩
  · unfold planINV planIndices at hinv ⊢
    dsimp only
    rw [jsmap_set_append s.calls ref s.fields hget, jsmap_values_append]
    rw [List.range_succ]
    exact perm_alloc4 s.fields hinv
  · intro x hx
    unfold skeys at hx ⊢
    dsimp only at hx
    rw [jsmap_set_append s.calls ref s.fields hget, jsmap_keys_append] at hx
    simp only [List.mem_append, List.mem_singleton] at hx ⊢
    tauto

theorem pres_setModify (ref : Nat) :
    Pres (modify (fun s => { s with sets := s.sets.set ref s.fields,
                                    fields := s.fields + 1 }) : TaperM PUnit)
      [ref] := by
  intro s r s2 h hinv hnd hdis
  rw [run_modify] at h
  cases h
  have hns : ref ∉ s.sets.keys := by
    intro hmem
    exact hdis ref (by simp) (List.mem_append.mpr (Or.inl hmem))
  have hget : s.sets.get ref = none := jsmap_get_none_of_not_mem _ _ hns
  refine ⟨?_, ?_⟩
  · unfold planINV planIndices at hinv ⊢
    dsimp only
    rw [jsmap_set_append s.sets ref s.fields hget, jsmap_values_append]
    rw [List.range_succ]
    exact perm_alloc3 s.fields hinv
  · intro x hx
    unfold skeys at hx ⊢
    dsimp only at hx
    rw [jsmap_set_append s.sets ref s.fields hget, jsmap_keys_append] at hx
    simp only [List.mem_append, List.mem_singleton] at hx ⊢
    tauto

theorem pres_modifyVars (g : TaperState → List Value) :
    Pres (modify (fun s => { s with vars := g s }) : TaperM PUnit) [] := by
  intro s r s2 h hinv hnd hdis
  rw [run_modify] at h
  cases h
  exact ⟨hinv, List.subset_append_left _ _⟩

theorem pres_throw_bind {α β : Type} (e : String) (k : α → TaperM β)
    (L : List Nat) : Pres ((throw e : TaperM α) >>= k) L := by
  intro s r s2 h
  cases h

/-- The planner preserves the field-index invariant (mutual strong induction
over the expression tree for `taperExpr`, `taperChildren`, `taperOperands`):
each planner computation's unconditional `sets`/`calls` insertions use keys
drawn from the labels of the subtree it traverses. -/
theorem taper_pres_aux : ∀ (n : Nat),
    (∀ e : Expr, sizeOf e ≤ n → Pres (taperExpr e) (Expr.labels e)) ∧
    (∀ es : List Expr, sizeOf es ≤ n → Pres (taperChildren es) (labelsList es)) ∧
    (∀ es : List Expr, sizeOf es ≤ n → Pres (taperOperands es) (labelsList es)) := by
  intro n
  induction n with
  | zero =>
    exact ⟨fun e he => absurd he (by have := sizeOf_expr_pos e; omega),
           fun es hes => absurd hes (by have := sizeOf_exprList_pos es; omega),
           fun es hes => absurd hes (by have := sizeOf_exprList_pos es; omega)⟩
  | succ n ih =>
    obtain ⟨ihe, ihb, iho⟩ := ih
    refine ⟨?_, ?_, ?_⟩
    · intro e he
      cases e with
      | block l name children type =>
        simp only [taperExpr, Expr.labels]
        refine pres_sub (ihb children (by simp at he ⊢; omega)) ?_ ?_
        · exact fun x hx => List.mem_cons_of_mem _ hx
        · exact fun hh => hh.of_cons
      | call l target operands isReturn type =>
        simp only [taperExpr, Expr.labels]
        refine pres_sub
          (?_ : Pres _ ([] ++ (labelsList operands ++ ([l] ++ [])))) ?_ ?_
        · apply pres_ite
          · exact pres_throw_bind _ _ _
          · apply pres_bind (pres_pure _); intro u0
            apply pres_bind (iho operands (by simp at he ⊢; omega)); intro u1
            apply pres_bind (pres_callModify l); intro u2
            exact pres_pure _
        · intro x hx; simp at hx ⊢; tauto
        · intro hh; simpa using nodup_cons_snoc _ _ hh
      | localGet l index type =>
        refine pres_sub ?_ (List.nil_subset _) (fun _ => List.nodup_nil)
        intro s r s2 h hinv hnd hdis
        cases hv : s.vars[index]? with
        | none =>
          have heq : taperExpr (.localGet l index type) s =
              .error "undefined variable" := by
            simp [taperExpr, bind, pure, hv]
          rw [heq] at h; cases h
        | some v =>
          cases v with
          | param =>
            have heq : taperExpr (.localGet l index type) s = .ok (.expression l,
                { s with vars := s.vars.set index (.expression l) }) := by
              simp [taperExpr, bind, pure, hv]
            rw [heq] at h; cases h
            exact ⟨hinv, List.subset_append_left _ _⟩
          | void =>
            have heq : taperExpr (.localGet l index type) s = .ok (.void, s) := by
              simp [taperExpr, bind, pure, hv]
            rw [heq] at h; cases h
            exact ⟨hinv, List.subset_append_left _ _⟩
          | const c =>
            have heq : taperExpr (.localGet l index type) s = .ok (.const c, s) := by
              simp [taperExpr, bind, pure, hv]
            rw [heq] at h; cases h
            exact ⟨hinv, List.subset_append_left _ _⟩
          | expression rr =>
            have heq : taperExpr (.localGet l index type) s =
                .ok (.expression rr, s) := by
              simp [taperExpr, bind, pure, hv]
            rw [heq] at h; cases h
            exact ⟨hinv, List.subset_append_left _ _⟩
      | localSet l index isTee value type =>
        simp only [taperExpr, Expr.labels]
        refine pres_sub
          (?_ : Pres _ (Expr.labels value ++ ([] ++ []))) ?_ ?_
        · apply pres_bind (ihe value (by simp at he; omega)); intro v
          apply pres_bind (pres_modifyVars _); intro u
          exact pres_pure _
        · intro x hx; simp at hx ⊢; tauto
        · intro hh; simpa using hh.of_cons
      | const l value type =>
        refine pres_sub ?_ (List.nil_subset _) (fun _ => List.nodup_nil)
        cases value with
        | num nn => simp only [taperExpr]; exact pres_pure _
        | other kind => simp only [taperExpr]; exact pres_throw _
      | binary l op a b =>
        cases op with
        | mulF64 =>
          simp only [taperExpr, Expr.labels]
          refine pres_sub
            (?_ : Pres _ (Expr.labels a ++ ([] ++ (Expr.labels b ++ ([] ++ [])))))
            ?_ ?_
          · apply pres_bind (ihe a (by simp at he; omega)); intro vl
            apply pres_bind (pres_mark _ _); intro u1
            apply pres_bind (ihe b (by simp at he; omega)); intro vr
            apply pres_bind (pres_mark _ _); intro u2
            exact pres_pure _
          · intro x hx; simp at hx ⊢; tauto
          · intro hh; simpa using hh.of_cons
        | divF64 =>
          simp only [taperExpr, Expr.labels]
          refine pres_sub
            (?_ : Pres _ (Expr.labels a ++ (Expr.labels b ++ ([] ++ [])))) ?_ ?_
          · apply pres_bind (ihe a (by simp at he; omega)); intro u1
            apply pres_bind (ihe b (by simp at he; omega)); intro vr
            apply pres_bind (pres_mark _ _); intro u2
            exact pres_mark _ _
          · intro x hx; simp at hx ⊢; tauto
          · intro hh; simpa using hh.of_cons
        | addF64 =>
          simp only [taperExpr, Expr.labels]
          refine pres_sub
            (?_ : Pres _ (Expr.labels a ++ (Expr.labels b ++ []))) ?_ ?_
          · apply pres_bind (ihe a (by simp at he; omega)); intro u1
            apply pres_bind (ihe b (by simp at he; omega)); intro u2
            exact pres_pure _
          · intro x hx; simp at hx ⊢; tauto
          · intro hh; simpa using hh.of_cons
        | subF64 =>
          simp only [taperExpr, Expr.labels]
          refine pres_sub
            (?_ : Pres _ (Expr.labels a ++ (Expr.labels b ++ []))) ?_ ?_
          · apply pres_bind (ihe a (by simp at he; omega)); intro u1
            apply pres_bind (ihe b (by simp at he; omega)); intro u2
            exact pres_pure _
          · intro x hx; simp at hx ⊢; tauto
          · intro hh; simpa using hh.of_cons
        | other id t =>
          simp only [taperExpr, Expr.labels]
          refine pres_sub
            (?_ : Pres _ (Expr.labels a ++ (Expr.labels b ++ []))) ?_ ?_
          · apply pres_bind (ihe a (by simp at he; omega)); intro u1
            apply pres_bind (ihe b (by simp at he; omega)); intro u2
            exact pres_pure _
          · intro x hx; simp at hx ⊢; tauto
          · intro hh; simpa using hh.of_cons
      | structNew l operands type =>
        simp only [taperExpr]
        refine pres_sub ?_ (List.nil_subset _) (fun _ => List.nodup_nil)
        apply pres_ite
        · exact pres_throw_bind _ _ _
        · exact pres_bind (pres_pure _) (fun u => pres_pure _)
      | arrayNew l init size type =>
        cases init with
        | some e0 =>
          simp only [taperExpr]
          refine pres_sub ?_ (List.nil_subset _) (fun _ => List.nodup_nil)
          exact pres_throw _
        | none =>
          simp only [taperExpr, Expr.labels]
          refine pres_sub (?_ : Pres _ (Expr.labels size ++ [])) ?_ ?_
          · apply pres_bind (ihe size (by simp at he; omega)); intro u
            exact pres_pure _
          · intro x hx; simp at hx ⊢; tauto
          · intro hh; simpa using hh.of_cons
      | arrayGet l arr index elemType isSigned =>
        simp only [taperExpr, Expr.labels]
        refine pres_sub
          (?_ : Pres _ (Expr.labels arr ++
            ([] ++ (Expr.labels index ++ ([] ++ []))))) ?_ ?_
        · apply pres_bind (ihe arr (by simp at he; omega)); intro va
          apply pres_ite
          · apply pres_bind (pres_markGrad _); intro u1
            apply pres_bind (ihe index (by simp at he; omega)); intro vi
            apply pres_bind (pres_mark _ _); intro u2
            exact pres_pure _
          · refine pres_sub
              (?_ : Pres _ (Expr.labels index ++ [])) ?_ ?_
            · apply pres_bind (ihe index (by simp at he; omega)); intro u
              exact pres_pure _
            · intro x hx; simp at hx ⊢; tauto
            · intro hh; simpa using hh
        · intro x hx; simp at hx ⊢; tauto
        · intro hh; simpa using hh.of_cons
      | arraySet l arr index value =>
        simp only [taperExpr, Expr.labels]
        refine pres_sub
          (?_ : Pres _ (Expr.labels arr ++ (Expr.labels index ++
            ([] ++ (Expr.labels value ++ ([] ++ ([] ++ ([] ++ ([l] ++ [])))))))))
          ?_ ?_
        · apply pres_bind (ihe arr (by simp at he; omega)); intro u1
          apply pres_bind (ihe index (by simp at he; omega)); intro vi
          apply pres_bind (pres_mark _ _); intro u2
          apply pres_bind (ihe value (by simp at he; omega)); intro u3
          apply pres_bind (pres_monadLift _); intro g
          apply pres_ite
          · apply pres_bind (pres_markGrad _); intro u4
            apply pres_bind (pres_markGrad _); intro u5
            apply pres_bind (pres_setModify l); intro u6
            exact pres_pure _
          · refine pres_sub
              (?_ : Pres _ (([] : List Nat) ++ [])) ?_ ?_
            · exact pres_bind (pres_pure _) (fun u => pres_pure _)
            · intro x hx; simp at hx
            · intro hh; simp
        · intro x hx; simp at hx ⊢; tauto
        · intro hh; simpa using nodup_cons_snoc _ _ hh
      | arrayLen l arr =>
        simp only [taperExpr, Expr.labels]
        refine pres_sub (?_ : Pres _ (Expr.labels arr ++ [])) ?_ ?_
        · apply pres_bind (ihe arr (by simp at he; omega)); intro u
          exact pres_pure _
        · intro x hx; simp at hx ⊢; tauto
        · intro hh; simpa using hh.of_cons
      | unsupported l id =>
        simp only [taperExpr]
        refine pres_sub ?_ (List.nil_subset _) (fun _ => List.nodup_nil)
        exact pres_throw _
    · intro es hes
      cases es with
      | nil => simp only [taperChildren, labelsList]; exact pres_pure _
      | cons c cs =>
        cases cs with
        | nil =>
          simp only [taperChildren, labelsList]
          refine pres_sub (ihe c (by simp at hes; omega)) ?_ ?_
          · intro x hx; simp at hx ⊢; tauto
          · intro hh; simpa using hh
        | cons c2 cs2 =>
          simp only [taperChildren, labelsList]
          exact pres_bind (ihe c (by simp at hes; omega))
            (fun u => ihb (c2 :: cs2) (by simp at hes ⊢; omega))
    · intro es hes
      cases es with
      | nil => simp only [taperOperands, labelsList]; exact pres_pure _
      | cons c cs =>
        simp only [taperOperands, labelsList]
        exact pres_bind (ihe c (by simp at hes; omega))
          (fun u => iho cs (by simp at hes ⊢; omega))

/-- The planner's per-expression invariant, at the top level. -/
theorem taperExpr_pres (e : Expr) : Pres (taperExpr e) (Expr.labels e) :=
  (taper_pres_aux (sizeOf e)).1 e (Nat.le_refl _)

/-- Planning a function whose body has pairwise distinct expression
references yields a state whose recorded field indices are a permutation of
`[0, fields)`. -/
theorem runTaper_planINV (f : Func) (s : TaperState)
    (hnd : (Expr.labels f.body).Nodup) (h : runTaper f = .ok s) :
    (planIndices s).Perm (List.range s.fields) := by
  unfold runTaper at h
  cases hr : (taperExpr f.body).run (initialTaperState f) with
  | error e => rw [hr] at h; cases h
  | ok p =>
    rw [hr] at h
    simp only [ok_bind, pure_except, Except.ok.injEq] at h
    subst h
    have hinit : planINV (initialTaperState f) := by
      unfold planINV planIndices initialTaperState JsMap.empty
      simp [JsMap.values]
    have hdis : ∀ x ∈ Expr.labels f.body, x ∉ skeys (initialTaperState f) := by
      intro x hx
      simp [skeys, initialTaperState, JsMap.empty, JsMap.keys]
    exact (taperExpr_pres f.body (initialTaperState f) p.1 p.2 hr hinit hnd hdis).1

theorem exceptMapM_nil {α β : Type} (g : α → Except String β) :
    ([] : List α).mapM g = pure [] := by
  rw [← List.mapM'_eq_mapM]
  rfl

theorem exceptMapM_cons {α β : Type} (g : α → Except String β) (a : α)
    (as : List α) :
    (a :: as).mapM g = g a >>= fun b => (List.cons b) <$> as.mapM g := by
  rw [← List.mapM'_eq_mapM, ← List.mapM'_eq_mapM]
  rfl

/-- Every tape built by `makeTapes` copies the maps and field count of the
planner state of some function of the module. -/
theorem makeTapes_mem_spec (mod : Module) (tapes : List Tape)
    (h : makeTapes mod = .ok tapes) :
    ∀ t ∈ tapes, ∃ f, f ∈ mod.functions ∧ ∃ s, runTaper f = .ok s ∧
      t.fields = s.fields ∧ t.stores = s.stores ∧ t.grads = s.grads ∧
      t.sets = s.sets ∧ t.calls = s.calls := by
  unfold makeTapes at h
  suffices H : ∀ (fs : List Func) (ts : List Tape),
      fs.mapM (makeTapeOne (funcIndicesByName mod)) = .ok ts →
      ∀ t ∈ ts, ∃ f, f ∈ fs ∧ ∃ s, runTaper f = .ok s ∧
        t.fields = s.fields ∧ t.stores = s.stores ∧ t.grads = s.grads ∧
        t.sets = s.sets ∧ t.calls = s.calls by
    exact H mod.functions tapes h
  intro fs
  induction fs with
  | nil =>
    intro ts hts
    rw [exceptMapM_nil] at hts
    cases hts
    intro t ht
    cases ht
  | cons f fs ih =>
    intro ts hts
    rw [exceptMapM_cons] at hts
    cases hf : makeTapeOne (funcIndicesByName mod) f with
    | error e => rw [hf] at hts; cases hts
    | ok t0 =>
      rw [hf] at hts
      simp only [ok_bind] at hts
      cases hrest : fs.mapM (makeTapeOne (funcIndicesByName mod)) with
      | error e => rw [hrest] at hts; cases hts
      | ok ts0 =>
        rw [hrest] at hts
        simp only [map_ok, Except.ok.injEq] at hts
        subst hts
        intro t ht
        cases ht with
        | head =>
          unfold makeTapeOne at hf
          cases hs : runTaper f with
          | error e => rw [hs] at hf; cases hf
          | ok s =>
            rw [hs] at hf
            simp only [ok_bind] at hf
            cases hasg : tapeFieldAssignments (funcIndicesByName mod) f.body s with
            | error e => rw [hasg] at hf; cases hf
            | ok asg =>
              rw [hasg] at hf
              simp only [ok_bind] at hf
              cases hsf : materializeStruct s.fields asg with
              | error e => rw [hsf] at hf; cases hf
              | ok sf =>
                rw [hsf] at hf
                simp only [ok_bind, pure_except, Except.ok.injEq] at hf
                subst hf
                exact ⟨f, List.mem_cons_self f fs, s, hs, rfl, rfl, rfl, rfl, rfl⟩
        | tail _ hmem =>
          obtain ⟨f2, hf2, s2, hs2, he1, he2, he3, he4, he5⟩ := ih ts0 hrest t hmem
          exact ⟨f2, List.mem_cons_of_mem f hf2, s2, hs2, he1, he2, he3, he4, he5⟩

/-- Claim C9: in every tape plan produced by the planner (for bodies whose
expression references are pairwise distinct, as binaryen guarantees), the
field indices recorded across the `stores`, `grads`, `sets` and `calls` maps
are pairwise distinct and are exactly the set `{0, ..., fields - 1}`: one
tape field per index in `[0, fields)`. -/
theorem claim9_field_indices (mod : Module) (tapes : List Tape)
    (hnd : ∀ f ∈ mod.functions, (Expr.labels f.body).Nodup)
    (h : makeTapes mod = .ok tapes) :
    ∀ t ∈ tapes, (tapeIndices t).Nodup ∧
      (tapeIndices t).Perm (List.range t.fields) := by
  intro t ht
  obtain ⟨f, hf, s, hrun, hfld, hst, hgr, hse, hca⟩ :=
    makeTapes_mem_spec mod tapes h t ht
  have hperm : (planIndices s).Perm (List.range s.fields) :=
    runTaper_planINV f s (hnd f hf) hrun
  have heq : tapeIndices t = planIndices s := by
    unfold tapeIndices planIndices
    rw [hst, hgr, hse, hca]
  rw [heq, hfld]
  exact ⟨hperm.nodup_iff.mpr (List.nodup_range _), hperm⟩

theorem claim9_field_indices_witness :
    (Expr.labels divFunc.body).Nodup ∧
    makeTapes c9mod = .ok [{
      fields := 2,
      stores := [(2, 0), (3, 1)],
      grads := [], sets := [], calls := [],
      loads := [(2, .field 0), (3, .field 1)],
      gradLoads := [],
      structFields := [(.f64, false), (.f64, false)] }] ∧
    (tapeIndices {
      fields := 2,
      stores := [(2, 0), (3, 1)],
      grads := [], sets := [], calls := [],
      loads := [(2, .field 0), (3, .field 1)],
      gradLoads := [],
      structFields := [(.f64, false), (.f64, false)] }).Nodup ∧
    (tapeIndices {
      fields := 2,
      stores := [(2, 0), (3, 1)],
      grads := [], sets := [], calls := [],
      loads := [(2, .field 0), (3, .field 1)],
      gradLoads := [],
      structFields := [(.f64, false), (.f64, false)] }).Perm
      (List.range ({
        fields := 2,
        stores := [(2, 0), (3, 1)],
        grads := [], sets := [], calls := [],
        loads := [(2, .field 0), (3, .field 1)],
        gradLoads := [],
        structFields := [(.f64, false), (.f64, false)] } : Tape).fields) :=
  ⟨by decide, rfl,
    claim9_field_indices c9mod _ (by decide) rfl _
      (List.mem_singleton.mpr rfl)⟩

end Wasmad
